import Mathlib

/-!
# rspi-mic-recorder: the segment controller and its workers

A shallow embedding of `main.go`.  The program is one controller goroutine
(`main`) and one worker goroutine per recording segment, synchronising over an
unbuffered channel `recordAudioChan` that is created afresh for every segment.

The embedding is a small-step interleaving semantics:

* every goroutine is a program counter over the statements of the source;
* a send on the unbuffered channel completes only together with a matching
  receive (a rendezvous step moving both parties);
* the `select` statement has one step per arm, each guarded by the readiness of
  its channel (`ctx.Done()` closed, resp. the 7 second timer elapsed);
* time is an explicit clock in nanoseconds that the environment advances;
* the outcomes of the external collaborators (`os.OpenFile`, `pulse.NewClient`,
  `c.NewRecord`, `time.Format`) are parameters collected in `Env`.
-/

namespace RspiMicRecorder

/-! ## Constants (main.go lines 18-22) -/

/-- Value `RECORD_AUDIO_SUCCESS` of the source. -/
def RECORD_AUDIO_SUCCESS : Int := 0
/-- Value `RECORD_AUDIO_FAIL` of the source. -/
def RECORD_AUDIO_FAIL : Int := 1
/-- Value `RECORD_AUDIO_STOP` of the source. -/
def RECORD_AUDIO_STOP : Int := 2

/-- One `time.Second`, in nanoseconds (Go's `time.Duration` unit). -/
def second : Nat := 1000000000

/-- The argument of `time.After` in the select statement: `7 * time.Second`. -/
def interval : Nat := 7 * second

/-! ## External collaborators -/

/-- Outcomes of the calls into the operating system and the libraries. -/
structure Env where
  /-- Whether `os.OpenFile` of the log file succeeds. -/
  openLogOk : Bool
  /-- The `-debug` flag. -/
  debugMode : Bool
  /-- Whether `pulse.NewClient()` succeeds. -/
  newClientOk : Bool
  /-- Whether `c.NewRecord` succeeds for the worker of segment `i`. -/
  newRecordOk : Nat → Bool
  /-- The text `time.Format(time.RFC3339)` gives for a time in whole Unix seconds. -/
  rfc3339 : Nat → String

/-! ## setupLogger (main.go lines 24-44) -/

/-- Log levels of `slog` used by the program. -/
inductive LogLevel
  | info
  | debug
deriving DecidableEq, Repr

/-- The function `setupLogger`: fails when the log file cannot be opened, otherwise
installs a logger whose level is `debug` in debug mode and `info` otherwise. -/
def setupLogger (openOk : Bool) (debugMode : Bool) : Except String LogLevel :=
  if !openOk then
    .error "error opening log file"
  else
    let level := LogLevel.info
    let level := if debugMode then LogLevel.debug else level
    .ok level

/-! ## The worker goroutine (main.go lines 87-111) -/

/-- Program counter of a worker: the statement it executes next. -/
inductive WPc
  /-- Line 91: `file := CreateFile(...)`. -/
  | createFile
  /-- Line 92: `stream, err := c.NewRecord(...)`. -/
  | newRecord
  /-- Line 96: `recordAudioChan <- RECORD_AUDIO_SUCCESS` on the error path. -/
  | sendFail
  /-- Line 100: `stream.Start()`. -/
  | streamStart
  /-- Line 104: `<-recordAudioChan`. -/
  | recvStop
  /-- Line 107: `stream.Stop()`. -/
  | streamStop
  /-- Line 108: `file.Close()`. -/
  | fileClose
  /-- Line 110: `recordAudioChan <- RECORD_AUDIO_SUCCESS`. -/
  | sendDone
  /-- The goroutine has returned (and the deferred `wg.Done()` has run). -/
  | returned
deriving DecidableEq, Repr

/-- What a worker has done so far, one entry per executed statement. -/
inductive WEvent
  | createFile (name : String) (sampleRate channels : Nat)
  | newRecord (ok : Bool)
  | streamStart
  | recv (v : Int)
  | streamStop
  | fileClose
  | send (v : Int)
deriving DecidableEq, Repr

/-- One segment: the worker goroutine launched for it together with the variables
of the loop iteration that the closure captures (`audioName`, `recordAudioChan`). -/
structure Worker where
  /-- The statement the worker executes next. -/
  pc : WPc
  /-- The captured `audioName`. -/
  audioName : String
  /-- The completed sends on the captured `recordAudioChan`, oldest first. -/
  recordAudioChan : List Int
  /-- The statements executed so far, oldest first. -/
  trace : List WEvent
  /-- Clock reading when the iteration took `time.Now()` (bookkeeping). -/
  launchedAt : Nat
  /-- Clock reading at `stream.Start()` (bookkeeping, 0 before). -/
  startedAt : Nat
  /-- Clock reading at `stream.Stop()` (bookkeeping, 0 before). -/
  stoppedAt : Nat
deriving DecidableEq, Repr

/-- The worker as launched by the `go` statement. -/
def Worker.fresh (audioName : String) (now : Nat) : Worker :=
  { pc := .createFile, audioName := audioName, recordAudioChan := [], trace := [],
    launchedAt := now, startedAt := 0, stoppedAt := 0 }

/-- A statement of the worker that involves no channel: `ok` is the outcome of
`c.NewRecord`, `now` the clock.  `none` when the worker is at a channel operation
or has returned. -/
def Worker.localStep (ok : Bool) (now : Nat) (w : Worker) : Option Worker :=
  match w.pc with
  | .createFile =>
      some { w with pc := .newRecord,
                    trace := w.trace ++ [.createFile (w.audioName ++ ".wav") 44100 1] }
  | .newRecord =>
      if ok then
        some { w with pc := .streamStart, trace := w.trace ++ [.newRecord true] }
      else
        some { w with pc := .sendFail, trace := w.trace ++ [.newRecord false] }
  | .streamStart =>
      some { w with pc := .recvStop, trace := w.trace ++ [.streamStart], startedAt := now }
  | .streamStop =>
      some { w with pc := .fileClose, trace := w.trace ++ [.streamStop], stoppedAt := now }
  | .fileClose =>
      some { w with pc := .sendDone, trace := w.trace ++ [.fileClose] }
  | .sendFail => none
  | .recvStop => none
  | .sendDone => none
  | .returned => none

/-- The worker's receive `<-recordAudioChan` (line 104) completing with value `v`. -/
def Worker.recvStep (v : Int) (w : Worker) : Option Worker :=
  match w.pc with
  | .recvStop =>
      some { w with pc := .streamStop, trace := w.trace ++ [.recv v],
                    recordAudioChan := w.recordAudioChan ++ [v] }
  | _ => none

/-- The value the worker offers on the channel when it is at a send statement. -/
def Worker.offer (w : Worker) : Option Int :=
  match w.pc with
  | .sendFail => some RECORD_AUDIO_SUCCESS
  | .sendDone => some RECORD_AUDIO_SUCCESS
  | _ => none

/-- The worker's send (line 96 or 110) completing; afterwards the goroutine returns. -/
def Worker.sendStep (w : Worker) : Option Worker :=
  match w.offer with
  | some v =>
      some { w with pc := .returned, trace := w.trace ++ [.send v],
                    recordAudioChan := w.recordAudioChan ++ [v] }
  | none => none

/-! ## The controller goroutine (main.go lines 46-150) -/

/-- Program counter of `main`. -/
inductive Ctrl
  /-- Line 54: `setupLogger(...)`. -/
  | setupLogger
  /-- After `os.Exit(code)` (line 58). -/
  | exited (code : Nat)
  /-- Line 65: `pulse.NewClient()`. -/
  | newClient
  /-- Line 73: `signal.NotifyContext(...)`. -/
  | notifyContext
  /-- Lines 81-87: make the channel, take `audioName`, launch the worker. -/
  | loopTop
  /-- Lines 113-116: `dying := false`, evaluate `time.After(7 * time.Second)`. -/
  | enterSelect (ch : Nat)
  /-- Line 116: blocked in `select`; the timer fires at `deadline`. -/
  | select (ch : Nat) (deadline : Nat)
  /-- Line 120 or 122: `recordAudioChan <- RECORD_AUDIO_STOP`. -/
  | sendStop (ch : Nat) (dying : Bool)
  /-- Line 126: `<-recordAudioChan`. -/
  | recvDone (ch : Nat) (dying : Bool)
  /-- Line 130: `if dying { break }`. -/
  | checkDying (ch : Nat) (dying : Bool)
  /-- Line 148: `wg.Wait()`. -/
  | wgWait
  /-- The function `main` has returned. -/
  | returned
deriving DecidableEq, Repr

/-- The process is running: `main` has neither called `os.Exit` nor returned. -/
def Ctrl.alive : Ctrl → Bool
  | .exited _ => false
  | .returned => false
  | _ => true

/-- The signal context of line 73 exists (and `main` has not returned). -/
def Ctrl.armed : Ctrl → Bool
  | .setupLogger => false
  | .exited _ => false
  | .newClient => false
  | .notifyContext => false
  | .returned => false
  | _ => true

/-- State of the whole process. -/
structure State where
  /-- Program counter of `main`. -/
  ctrl : Ctrl
  /-- The workers launched so far, in launch order; worker `i` owns channel `i`. -/
  workers : List Worker
  /-- The clock, in nanoseconds. -/
  now : Nat
  /-- Whether `ctx.Done()` is closed (the shutdown signal has fired). -/
  ctxDone : Bool
  /-- How many iterations of the loop have run to their end without `break`
  (bookkeeping). -/
  iterations : Nat
deriving DecidableEq, Repr

/-- The process at the start of `main`, with the clock at `t0`. -/
def init (t0 : Nat) : State :=
  { ctrl := .setupLogger, workers := [], now := t0, ctxDone := false, iterations := 0 }

/-- Who moves. -/
inductive Action
  /-- The controller executes its next statement that is neither the select nor
  a channel operation. -/
  | main
  /-- The select takes `case <-ctx.Done()`. -/
  | selectCtx
  /-- The select takes `case <-time.After(7 * time.Second)`. -/
  | selectTimer
  /-- The controller's send of `RECORD_AUDIO_STOP` meets the worker's receive. -/
  | handStop
  /-- The worker's send meets the controller's receive of line 126. -/
  | handDone
  /-- Worker `i` executes its next statement that is not a channel operation. -/
  | worker (i : Nat)
  /-- Time passes: `d` nanoseconds. -/
  | tick (d : Nat)
  /-- An interrupt or termination signal arrives. -/
  | signal
deriving DecidableEq, Repr

/-- The controller's statements outside select and channel operations. -/
def mainStep (env : Env) (s : State) : Option State :=
  match s.ctrl with
  | .setupLogger =>
      match setupLogger env.openLogOk env.debugMode with
      | .error _ => some { s with ctrl := .exited 1 }
      | .ok _ => some { s with ctrl := .newClient }
  | .newClient =>
      if env.newClientOk then some { s with ctrl := .notifyContext }
      else some { s with ctrl := .returned }
  | .notifyContext => some { s with ctrl := .loopTop }
  | .loopTop =>
      some { s with ctrl := .enterSelect s.workers.length,
                    workers := s.workers ++
                      [Worker.fresh (env.rfc3339 (s.now / second)) s.now] }
  | .enterSelect ch => some { s with ctrl := .select ch (s.now + interval) }
  | .checkDying _ dying =>
      if dying then some { s with ctrl := .wgWait }
      else some { s with ctrl := .loopTop, iterations := s.iterations + 1 }
  | .wgWait =>
      if s.workers.all (fun w => decide (w.pc = .returned)) then
        some { s with ctrl := .returned }
      else none
  | .exited _ => none
  | .select _ _ => none
  | .sendStop _ _ => none
  | .recvDone _ _ => none
  | .returned => none

/-- The arm `case <-ctx.Done()`: `dying = true`, then the send of line 120. -/
def selectCtxStep (s : State) : Option State :=
  match s.ctrl with
  | .select ch _ => if s.ctxDone then some { s with ctrl := .sendStop ch true } else none
  | _ => none

/-- The arm `case <-time.After(...)`: then the send of line 122. -/
def selectTimerStep (s : State) : Option State :=
  match s.ctrl with
  | .select ch deadline =>
      if deadline ≤ s.now then some { s with ctrl := .sendStop ch false } else none
  | _ => none

/-- Rendezvous of the controller's send (line 120 or 122) with the receive of the
worker that owns the channel (line 104). -/
def handStopStep (s : State) : Option State :=
  match s.ctrl with
  | .sendStop ch dying =>
      match s.workers[ch]? with
      | some w =>
          match w.recvStep RECORD_AUDIO_STOP with
          | some w' => some { s with ctrl := .recvDone ch dying, workers := s.workers.set ch w' }
          | none => none
      | none => none
  | _ => none

/-- Rendezvous of the worker's send (line 96 or 110) with the controller's receive
(line 126). -/
def handDoneStep (s : State) : Option State :=
  match s.ctrl with
  | .recvDone ch dying =>
      match s.workers[ch]? with
      | some w =>
          match w.sendStep with
          | some w' => some { s with ctrl := .checkDying ch dying, workers := s.workers.set ch w' }
          | none => none
      | none => none
  | _ => none

/-- A local statement of worker `i`; goroutines run only while the process does. -/
def workerStep (env : Env) (i : Nat) (s : State) : Option State :=
  if s.ctrl.alive then
    match s.workers[i]? with
    | some w =>
        match w.localStep (env.newRecordOk i) s.now with
        | some w' => some { s with workers := s.workers.set i w' }
        | none => none
    | none => none
  else none

/-- One step of the process. -/
def step (env : Env) (a : Action) (s : State) : Option State :=
  match a with
  | .main => mainStep env s
  | .selectCtx => selectCtxStep s
  | .selectTimer => selectTimerStep s
  | .handStop => handStopStep s
  | .handDone => handDoneStep s
  | .worker i => workerStep env i s
  | .tick d => if s.ctrl.alive then some { s with now := s.now + d } else none
  | .signal => if s.ctrl.armed then some { s with ctxDone := true } else none

/-- A sequence of steps; `none` when one of them is not enabled. -/
def run (env : Env) : List Action → State → Option State
  | [], s => some s
  | a :: rest, s =>
      match step env a s with
      | some s' => run env rest s'
      | none => none

/-- The states the process can be in, started with the clock at `t0`. -/
def Reachable (env : Env) (t0 : Nat) (s : State) : Prop :=
  ∃ acts, run env acts (init t0) = some s

/-! ## Invariants, observations and schedules used by the theorems -/

/-- The worker has not yet received the stop instruction. -/
def WPc.early : WPc → Bool
  | .createFile => true
  | .newRecord => true
  | .sendFail => true
  | .streamStart => true
  | .recvStop => true
  | _ => false

/-- The worker has received the stop instruction and has not yet been acknowledged. -/
def WPc.late : WPc → Bool
  | .streamStop => true
  | .fileClose => true
  | .sendDone => true
  | _ => false

/-- The worker is past a successful `c.NewRecord`. -/
def WPc.hasStream : WPc → Bool
  | .createFile => false
  | .newRecord => false
  | .sendFail => false
  | _ => true

/-- The statements a worker has executed when it stands at `pc`, in the composed
process (where a worker returns only through line 110). -/
def traceAt (name : String) : WPc → List WEvent
  | .createFile => []
  | .newRecord => [.createFile (name ++ ".wav") 44100 1]
  | .sendFail => [.createFile (name ++ ".wav") 44100 1, .newRecord false]
  | .streamStart => [.createFile (name ++ ".wav") 44100 1, .newRecord true]
  | .recvStop => [.createFile (name ++ ".wav") 44100 1, .newRecord true, .streamStart]
  | .streamStop => [.createFile (name ++ ".wav") 44100 1, .newRecord true, .streamStart,
      .recv RECORD_AUDIO_STOP]
  | .fileClose => [.createFile (name ++ ".wav") 44100 1, .newRecord true, .streamStart,
      .recv RECORD_AUDIO_STOP, .streamStop]
  | .sendDone => [.createFile (name ++ ".wav") 44100 1, .newRecord true, .streamStart,
      .recv RECORD_AUDIO_STOP, .streamStop, .fileClose]
  | .returned => [.createFile (name ++ ".wav") 44100 1, .newRecord true, .streamStart,
      .recv RECORD_AUDIO_STOP, .streamStop, .fileClose, .send RECORD_AUDIO_SUCCESS]

/-- The completed sends on a worker's channel when the worker stands at `pc`. -/
def chanAt : WPc → List Int
  | .streamStop => [RECORD_AUDIO_STOP]
  | .fileClose => [RECORD_AUDIO_STOP]
  | .sendDone => [RECORD_AUDIO_STOP]
  | .returned => [RECORD_AUDIO_STOP, RECORD_AUDIO_SUCCESS]
  | _ => []

/-- The channel the controller holds in the current iteration, and whether its
stop instruction has been received. -/
def Ctrl.current : Ctrl → Option (Nat × Bool)
  | .enterSelect ch => some (ch, false)
  | .select ch _ => some (ch, false)
  | .sendStop ch _ => some (ch, false)
  | .recvDone ch _ => some (ch, true)
  | _ => none

/-- Which program counters worker `i` may have, given the controller's. -/
def coupled (c : Ctrl) (i : Nat) (pc : WPc) : Prop :=
  match c.current with
  | some (ch, handed) =>
      if i = ch then (if handed then pc.late = true else pc.early = true) else pc = .returned
  | none => pc = .returned

/-- How many workers have been launched (`n`) and how many iterations have been
completed (`k`), given the controller's program counter. -/
def shape (c : Ctrl) (n k : Nat) : Prop :=
  match c with
  | .setupLogger => n = 0 ∧ k = 0
  | .exited _ => n = 0 ∧ k = 0
  | .newClient => n = 0 ∧ k = 0
  | .notifyContext => n = 0 ∧ k = 0
  | .loopTop => k = n
  | .enterSelect ch => ch + 1 = n ∧ k = ch
  | .select ch _ => ch + 1 = n ∧ k = ch
  | .sendStop ch _ => ch + 1 = n ∧ k = ch
  | .recvDone ch _ => ch + 1 = n ∧ k = ch
  | .checkDying ch _ => ch + 1 = n ∧ k = ch
  | _ => True

/-- What is known about the launch time `t` of the latest worker. -/
def lastOk (c : Ctrl) (now t : Nat) : Prop :=
  match c with
  | .loopTop => t + interval ≤ now
  | .select _ deadline => t + interval ≤ deadline
  | .sendStop _ false => t + interval ≤ now
  | .recvDone _ false => t + interval ≤ now
  | .checkDying _ false => t + interval ≤ now
  | _ => True

/-- Consistency of one worker with its own program counter. -/
structure WorkerOk (env : Env) (i : Nat) (w : Worker) : Prop where
  trace_eq : w.trace = traceAt w.audioName w.pc
  chan_eq : w.recordAudioChan = chanAt w.pc
  stream_ok : w.pc.hasStream = true → env.newRecordOk i = true
  fail_ok : w.pc = .sendFail → env.newRecordOk i = false
  name_eq : w.audioName = env.rfc3339 (w.launchedAt / second)

/-- The invariant of the composed process. -/
structure Invariant (env : Env) (s : State) : Prop where
  shaped : shape s.ctrl s.workers.length s.iterations
  wk : ∀ i w, s.workers[i]? = some w →
    WorkerOk env i w ∧ coupled s.ctrl i w.pc ∧ w.launchedAt ≤ s.now ∧
    (i + 1 < s.workers.length → w.launchedAt + interval ≤ s.now) ∧
    (i + 1 = s.workers.length → lastOk s.ctrl s.now w.launchedAt)
  gap : ∀ (i j : Nat) (wi wj : Worker), i < j → s.workers[i]? = some wi → s.workers[j]? = some wj →
    wi.launchedAt + interval ≤ wj.launchedAt

/-- The worker's next statement when its channel partner is always ready. -/
def Worker.next (ok : Bool) (now : Nat) (w : Worker) : Option Worker :=
  match w.localStep ok now with
  | some w' => some w'
  | none =>
      match w.recvStep RECORD_AUDIO_STOP with
      | some w' => some w'
      | none => w.sendStep

/-- The worker run on its own for at most `fuel` statements. -/
def Worker.runAlone (ok : Bool) (now : Nat) : Nat → Worker → Worker
  | 0, w => w
  | fuel + 1, w =>
      match w.next ok now with
      | some w' => Worker.runAlone ok now fuel w'
      | none => w

/-- The statements of a complete execution of the worker body, in order. -/
def workerPath (ok : Bool) (name : String) : List WEvent :=
  (Worker.runAlone ok 0 16 (Worker.fresh name 0)).trace

/-- Whether an entry of a trace is a send on the channel. -/
def WEvent.isSend : WEvent → Bool
  | .send _ => true
  | _ => false

/-- The worker's capture stream has been started and not yet stopped. -/
def Worker.streamOpen (w : Worker) : Bool :=
  decide (WEvent.streamStart ∈ w.trace) && !decide (WEvent.streamStop ∈ w.trace)

/-- The controller is out of the loop: at `wg.Wait()` or returned. -/
def Ctrl.leftLoop : Ctrl → Bool
  | .wgWait => true
  | .returned => true
  | _ => false

/-- A stand-in for the RFC3339 text of a time: distinct seconds give distinct texts. -/
def stamp (n : Nat) : String := String.mk (List.replicate n 't')

/-- Every collaborator succeeds. -/
def envOk : Env :=
  { openLogOk := true, debugMode := false, newClientOk := true,
    newRecordOk := fun _ => true, rfc3339 := stamp }

/-- Every collaborator succeeds except `c.NewRecord`, which always fails. -/
def envRecordFails : Env :=
  { openLogOk := true, debugMode := false, newClientOk := true,
    newRecordOk := fun _ => false, rfc3339 := stamp }

/-- The state after the schedule `acts`, started with the clock at 0 (the initial
state when the schedule cannot be run). -/
def stateAfter (env : Env) (acts : List Action) : State :=
  (run env acts (init 0)).getD (init 0)

/-- Startup, one worker whose `c.NewRecord` fails, the timer fires after 7 s. -/
def failSchedule : List Action :=
  [.main, .main, .main, .main, .worker 0, .worker 0, .main, .tick interval, .selectTimer]

/-- Startup, one segment recorded for 3 s, then the shutdown signal and the exit. -/
def shutdownSchedule : List Action :=
  [.main, .main, .main, .main, .worker 0, .worker 0, .worker 0, .main, .tick (3 * second),
   .signal, .selectCtx, .handStop, .worker 0, .worker 0, .handDone, .main, .main]

/-- Startup, one full segment, and the second segment up to its started stream. -/
def twoSegmentSchedule : List Action :=
  [.main, .main, .main, .main, .worker 0, .worker 0, .worker 0, .main, .tick interval,
   .selectTimer, .handStop, .worker 0, .worker 0, .handDone, .main,
   .main, .worker 1, .worker 1, .worker 1]

/-- The schedule `failSchedule`, then the shutdown signal and 7 more seconds. -/
def failLaterSchedule : List Action :=
  failSchedule ++ [.signal, .tick interval]

/-- A created audio file: the arguments of `CreateFile`. -/
structure WavFile where
  name : String
  sampleRate : Nat
  channels : Nat
deriving DecidableEq, Repr

/-- The file an entry of a trace creates, if any. -/
def WEvent.created : WEvent → Option WavFile
  | .createFile name sampleRate channels => some ⟨name, sampleRate, channels⟩
  | _ => none

/-- The files a worker has created. -/
def Worker.created (w : Worker) : List WavFile :=
  w.trace.filterMap WEvent.created

/-- The files created by the workers, in launch order. -/
def createdFiles : List Worker → List WavFile
  | [] => []
  | w :: ws => w.created ++ createdFiles ws

/-- The select has taken the shutdown arm (`dying` is true) or the loop has been left. -/
def Ctrl.shutdown : Ctrl → Bool
  | .sendStop _ dying => dying
  | .recvDone _ dying => dying
  | .checkDying _ dying => dying
  | .wgWait => true
  | .returned => true
  | _ => false

/-- Where the controller can be when a startup call has failed. -/
def StartupOk (env : Env) (s : State) : Prop :=
  (env.openLogOk = false → s.ctrl = .setupLogger ∨ s.ctrl = .exited 1) ∧
  (env.openLogOk = true → env.newClientOk = false →
    (s.ctrl = .setupLogger ∨ s.ctrl = .newClient ∨ s.ctrl = .returned) ∧ s.workers = [])

/-- The file `CreateFile` makes for a worker. -/
def Worker.wav (w : Worker) : WavFile :=
  { name := w.audioName ++ ".wav", sampleRate := 44100, channels := 1 }

/-- One full segment whose timer fires; the shutdown signal arrives while the worker is
still stopping its stream. -/
def lateSignalSchedule : List Action :=
  [.main, .main, .main, .main, .worker 0, .worker 0, .worker 0, .main, .tick interval,
   .selectTimer, .handStop, .signal]

/-- The continuation of `lateSignalSchedule`: the worker finishes, the controller loops,
launches the next worker, and that worker creates its file. -/
def lateSignalRest : List Action :=
  [.worker 0, .worker 0, .handDone, .main, .main, .worker 1]

/-- Two full segments, the controller back at the top of the loop. -/
def twoFullSchedule : List Action :=
  [.main, .main, .main, .main, .worker 0, .worker 0, .worker 0, .main, .tick interval,
   .selectTimer, .handStop, .worker 0, .worker 0, .handDone, .main,
   .main, .worker 1, .worker 1, .worker 1, .main, .tick interval,
   .selectTimer, .handStop, .worker 1, .worker 1, .handDone, .main]

/-- The timed reading of a schedule with the shutdown signal raised at clock `T`: every
statement and every handshake takes no time, so the clock advances only while the
controller is blocked in the select with neither arm ready and the worker is blocked
in its receive, and never past the timer's deadline or the signal; the signal is
raised once, when the clock shows `T`. -/
def timedOk (T : Nat) (a : Action) (s : State) : Bool :=
  match a with
  | .tick d =>
      match s.ctrl with
      | .select ch deadline =>
          !s.ctxDone && decide (s.now + d ≤ deadline) && decide (s.now + d ≤ T) &&
            (match s.workers[ch]? with
             | some w => decide (w.pc = .recvStop)
             | none => false)
      | _ => false
  | .signal => decide (s.now = T) && !s.ctxDone
  | _ => true

/-- A run all of whose steps are allowed by the timed reading. -/
def runTimed (env : Env) (T : Nat) : List Action → State → Option State
  | [], s => some s
  | a :: rest, s =>
      if timedOk T a s then
        match step env a s with
        | some s' => runTimed env T rest s'
        | none => none
      else none

/-- The worker has not yet reached its receive. -/
def WPc.beforeRecv : WPc → Bool
  | .createFile => true
  | .newRecord => true
  | .sendFail => true
  | .streamStart => true
  | _ => false

/-- The worker has executed `stream.Start()`. -/
def WPc.pastStart : WPc → Bool
  | .recvStop => true
  | .streamStop => true
  | .fileClose => true
  | .sendDone => true
  | .returned => true
  | _ => false

/-- The worker has executed `stream.Stop()`. -/
def WPc.pastStop : WPc → Bool
  | .fileClose => true
  | .sendDone => true
  | .returned => true
  | _ => false

/-- The clock of the timed reading, given the controller's program counter, the number
of workers `n`, and whether the signal has fired. -/
def clockOk (t0 T : Nat) (c : Ctrl) (n now : Nat) (cd : Bool) : Prop :=
  match c with
  | .setupLogger => now = t0 ∧ cd = false
  | .newClient => now = t0 ∧ cd = false
  | .notifyContext => now = t0 ∧ cd = false
  | .exited _ => False
  | .loopTop => now = t0 + n * interval ∧ now < T ∧ cd = false
  | .enterSelect ch => now = t0 + ch * interval ∧ now < T ∧ cd = false
  | .select ch deadline =>
      deadline = t0 + (ch + 1) * interval ∧ t0 + ch * interval ≤ now ∧ now ≤ deadline ∧
        now ≤ T ∧ (cd = true → now = T)
  | .sendStop ch dying =>
      if dying then now = T ∧ t0 + ch * interval < T ∧ T < t0 + (ch + 1) * interval
      else now = t0 + (ch + 1) * interval ∧ now < T ∧ cd = false
  | .recvDone ch dying =>
      if dying then now = T ∧ t0 + ch * interval < T ∧ T < t0 + (ch + 1) * interval
      else now = t0 + (ch + 1) * interval ∧ now < T ∧ cd = false
  | .checkDying ch dying =>
      if dying then now = T ∧ t0 + ch * interval < T ∧ T < t0 + (ch + 1) * interval
      else now = t0 + (ch + 1) * interval ∧ now < T ∧ cd = false
  | .wgWait => now = T ∧ ∃ ch, ch + 1 = n ∧ t0 + ch * interval < T ∧ T < t0 + (ch + 1) * interval
  | .returned =>
      now = T ∧ ∃ ch, ch + 1 = n ∧ t0 + ch * interval < T ∧ T < t0 + (ch + 1) * interval

/-- The bookkeeping times of worker `i` in the timed reading, `n` workers launched. -/
structure TimedWorker (t0 n now i : Nat) (w : Worker) : Prop where
  launched : w.launchedAt = t0 + i * interval
  early : w.pc.beforeRecv = true → now = w.launchedAt
  started : w.pc.pastStart = true → w.startedAt = w.launchedAt
  stoppedOld : i + 1 < n → w.stoppedAt = w.launchedAt + interval
  stoppedLast : i + 1 = n → w.pc.pastStop = true → w.stoppedAt = now

/-- The invariant of the timed reading. -/
structure TimedInv (t0 T : Nat) (s : State) : Prop where
  clock : clockOk t0 T s.ctrl s.workers.length s.now s.ctxDone
  tw : ∀ (i : Nat) (w : Worker), s.workers[i]? = some w →
    TimedWorker t0 s.workers.length s.now i w

/-- One whole segment ended by the timer, for the worker with index `i`. -/
def fullSegment (i : Nat) : List Action :=
  [.main, .worker i, .worker i, .worker i, .main, .tick interval, .selectTimer, .handStop,
   .worker i, .worker i, .handDone, .main]

/-- The segment that the shutdown signal ends after `r` nanoseconds, then the exit. -/
def lastSegment (i r : Nat) : List Action :=
  [.main, .worker i, .worker i, .worker i, .main, .tick r, .signal, .selectCtx, .handStop,
   .worker i, .worker i, .handDone, .main, .main]

/-- The segments `i`, `i + 1`, ... (`k` of them), each ended by the timer. -/
def fullSegments : Nat → Nat → List Action
  | _, 0 => []
  | i, k + 1 => fullSegment i ++ fullSegments (i + 1) k

/-- The schedule of the timed reading when the signal is raised `t` seconds after the
start of the loop. -/
def timedSchedule (t : Nat) : List Action :=
  [.main, .main, .main] ++ (fullSegments 0 (t / 7) ++ lastSegment (t / 7) (t % 7 * second))

/-- The worker of a finished segment launched at `start` and stopped at `stop`. -/
def Worker.finished (name : String) (start stop : Nat) : Worker :=
  { pc := .returned, audioName := name,
    recordAudioChan := [RECORD_AUDIO_STOP, RECORD_AUDIO_SUCCESS],
    trace := traceAt name .returned,
    launchedAt := start, startedAt := start, stoppedAt := stop }

/-- The worker of a segment at program counter `pc` on the path with a stream. -/
def Worker.onPath (name : String) (launched started stopped : Nat) (pc : WPc) : Worker :=
  { pc := pc, audioName := name, recordAudioChan := chanAt pc, trace := traceAt name pc,
    launchedAt := launched, startedAt := started, stoppedAt := stopped }

/-- One when the controller reaches the top of the loop, and so launches a worker,
without resolving a select first: it is at the top of the loop, or it has taken the
timer arm of the current iteration (it sends stop, waits for done, or tests `dying`
with `dying` false), or it is still in the startup before the loop. -/
def Ctrl.pending : Ctrl → Nat
  | .setupLogger => 1
  | .newClient => 1
  | .notifyContext => 1
  | .loopTop => 1
  | .sendStop _ false => 1
  | .recvDone _ false => 1
  | .checkDying _ false => 1
  | _ => 0

/-- The rest of the run after `lateSignalSchedule`: the first worker finishes, the
controller loops, launches and stops a second worker through the shutdown arm, and
`main` returns. -/
def lateSignalExit : List Action :=
  [.worker 0, .worker 0, .handDone, .main, .main, .worker 1, .worker 1, .worker 1, .main,
   .selectCtx, .handStop, .worker 1, .worker 1, .handDone, .main, .main]

/-- The state after the schedule `acts` in the timed reading with the signal at `T`,
started with the clock at 0 (the initial state when the schedule cannot be run). -/
def timedStateAfter (env : Env) (T : Nat) (acts : List Action) : State :=
  (runTimed env T acts (init 0)).getD (init 0)

/-! ## Theorems -/

theorem getElem?_set_some {α : Type} {l : List α} {i j : Nat} {a w : α}
    (h : (l.set i a)[j]? = some w) :
    (j = i ∧ w = a ∧ i < l.length) ∨ (j ≠ i ∧ l[j]? = some w) := by
  rw [List.getElem?_set] at h
  by_cases hij : i = j
  · subst hij
    simp only [if_true] at h
    by_cases hl : i < l.length
    · simp only [hl, if_true, Option.some.injEq] at h
      exact Or.inl ⟨rfl, h.symm, hl⟩
    · simp [hl] at h
  · simp only [hij, if_false] at h
    exact Or.inr ⟨fun e => hij e.symm, h⟩

theorem getElem?_snoc_some {α : Type} {l : List α} {j : Nat} {a w : α}
    (h : (l ++ [a])[j]? = some w) :
    (j < l.length ∧ l[j]? = some w) ∨ (j = l.length ∧ w = a) := by
  rw [List.getElem?_append] at h
  by_cases hj : j < l.length
  · simp only [hj, if_true] at h
    exact Or.inl ⟨hj, h⟩
  · simp only [hj, if_false] at h
    have hlt : j - l.length < 1 := by
      by_contra hc
      rw [List.getElem?_eq_none (by simp only [List.length_singleton]; omega)] at h
      cases h
    have : j - l.length = 0 := by omega
    rw [this] at h
    simp at h
    exact Or.inr ⟨by omega, h.symm⟩

theorem lastOk_mono {c : Ctrl} {now t : Nat} (d : Nat) (h : lastOk c now t) :
    lastOk c (now + d) t := by
  cases c <;> simp only [lastOk] at h ⊢ <;> try omega
  all_goals (rename_i dying; cases dying <;> simp only [lastOk] at h ⊢; omega)

theorem Invariant.init_inv (env : Env) (t0 : Nat) : Invariant env (init t0) := by
  refine ⟨?_, ?_, ?_⟩
  · simp [RspiMicRecorder.init, RspiMicRecorder.shape]
  · intro i w h
    simp [RspiMicRecorder.init] at h
  · intro i j wi wj _ h
    simp [RspiMicRecorder.init] at h

theorem Invariant.tick_inv {env : Env} {s : State} (d : Nat) (h : Invariant env s) :
    Invariant env { s with now := s.now + d } := by
  refine ⟨h.shaped, ?_, h.gap⟩
  intro i w hw
  obtain ⟨h1, h2, h3, h4, h5⟩ := h.wk i w hw
  refine ⟨h1, h2, ?_, ?_, ?_⟩
  · show w.launchedAt ≤ s.now + d
    omega
  · intro hl
    have := h4 hl
    show w.launchedAt + interval ≤ s.now + d
    omega
  · intro hl
    exact lastOk_mono d (h5 hl)

theorem Invariant.signal_inv {env : Env} {s : State} (h : Invariant env s) :
    Invariant env { s with ctxDone := true } :=
  ⟨h.shaped, h.wk, h.gap⟩

theorem Invariant.selectCtx_inv {env : Env} {s s' : State} (h : Invariant env s)
    (hs : selectCtxStep s = some s') : Invariant env s' := by
  obtain ⟨c, ws, now, cd, k⟩ := s
  cases c <;> simp only [selectCtxStep] at hs <;> try cases hs
  rename_i ch dl
  split at hs
  · cases hs
    refine ⟨h.shaped, ?_, h.gap⟩
    intro i w hw
    obtain ⟨h1, h2, h3, h4, h5⟩ := h.wk i w hw
    exact ⟨h1, h2, h3, h4, fun _ => trivial⟩
  · cases hs

theorem Invariant.selectTimer_inv {env : Env} {s s' : State} (h : Invariant env s)
    (hs : selectTimerStep s = some s') : Invariant env s' := by
  obtain ⟨c, ws, now, cd, k⟩ := s
  cases c <;> simp only [selectTimerStep] at hs <;> try cases hs
  rename_i ch dl
  split at hs
  · rename_i hdl
    cases hs
    refine ⟨h.shaped, ?_, h.gap⟩
    intro i w hw
    obtain ⟨h1, h2, h3, h4, h5⟩ := h.wk i w hw
    refine ⟨h1, h2, h3, h4, ?_⟩
    intro hl
    have := h5 hl
    simp only [lastOk] at this ⊢
    omega
  · cases hs

theorem WorkerOk.recvStep_ok {env : Env} {i : Nat} {w w' : Worker} (h : WorkerOk env i w)
    (hs : w.recvStep RECORD_AUDIO_STOP = some w') :
    WorkerOk env i w' ∧ w.pc = .recvStop ∧ w'.pc = .streamStop ∧
      w'.launchedAt = w.launchedAt := by
  obtain ⟨pc, name, chan, tr, la, sa, so⟩ := w
  obtain ⟨h1, h2, h3, h4, h5⟩ := h
  cases pc <;> simp only [Worker.recvStep] at hs <;> try cases hs
  simp only [traceAt, chanAt] at h1 h2
  subst h1 h2
  refine ⟨⟨?_, ?_, ?_, ?_, h5⟩, rfl, rfl, rfl⟩
  · simp [traceAt]
  · simp [chanAt]
  · intro _
    exact h3 rfl
  · intro hc
    cases hc

theorem WorkerOk.sendStep_ok {env : Env} {i : Nat} {w w' : Worker} (h : WorkerOk env i w)
    (hl : w.pc.late = true) (hs : w.sendStep = some w') :
    WorkerOk env i w' ∧ w'.pc = .returned ∧ w'.launchedAt = w.launchedAt := by
  obtain ⟨pc, name, chan, tr, la, sa, so⟩ := w
  obtain ⟨h1, h2, h3, h4, h5⟩ := h
  cases pc <;> simp only [Worker.sendStep, Worker.offer] at hs <;> try cases hs
  · simp [WPc.late] at hl
  · simp only [traceAt, chanAt] at h1 h2
    subst h1 h2
    refine ⟨⟨?_, ?_, ?_, ?_, h5⟩, rfl, rfl⟩
    · simp [traceAt]
    · simp [chanAt]
    · intro _
      exact h3 rfl
    · intro hc
      cases hc

theorem WorkerOk.localStep_ok {env : Env} {i now : Nat} {w w' : Worker} (h : WorkerOk env i w)
    (hs : w.localStep (env.newRecordOk i) now = some w') :
    WorkerOk env i w' ∧ w'.launchedAt = w.launchedAt ∧
      (w.pc.early = true → w'.pc.early = true) ∧ (w.pc.late = true → w'.pc.late = true) ∧
      w.pc ≠ .returned := by
  obtain ⟨pc, name, chan, tr, la, sa, so⟩ := w
  obtain ⟨h1, h2, h3, h4, h5⟩ := h
  cases pc <;> simp only [Worker.localStep] at hs <;> try cases hs
  · simp only [traceAt, chanAt] at h1 h2
    subst h1 h2
    refine ⟨⟨?_, ?_, ?_, ?_, h5⟩, rfl, ?_, ?_, ?_⟩ <;> simp [traceAt, chanAt, WPc.hasStream, WPc.early, WPc.late]
  · simp only [traceAt, chanAt] at h1 h2
    subst h1 h2
    split at hs
    · rename_i hok
      cases hs
      refine ⟨⟨?_, ?_, ?_, ?_, h5⟩, rfl, ?_, ?_, ?_⟩ <;> simp [traceAt, chanAt, WPc.hasStream, WPc.early, WPc.late, hok]
    · rename_i hok
      cases hs
      refine ⟨⟨?_, ?_, ?_, ?_, h5⟩, rfl, ?_, ?_, ?_⟩ <;> simp [traceAt, chanAt, WPc.hasStream, WPc.early, WPc.late, hok]
  · simp only [traceAt, chanAt] at h1 h2
    subst h1 h2
    have := h3 rfl
    refine ⟨⟨?_, ?_, ?_, ?_, h5⟩, rfl, ?_, ?_, ?_⟩ <;> simp [traceAt, chanAt, WPc.hasStream, WPc.early, WPc.late, this]
  · simp only [traceAt, chanAt] at h1 h2
    subst h1 h2
    have := h3 rfl
    refine ⟨⟨?_, ?_, ?_, ?_, h5⟩, rfl, ?_, ?_, ?_⟩ <;> simp [traceAt, chanAt, WPc.hasStream, WPc.early, WPc.late, this]
  · simp only [traceAt, chanAt] at h1 h2
    subst h1 h2
    have := h3 rfl
    refine ⟨⟨?_, ?_, ?_, ?_, h5⟩, rfl, ?_, ?_, ?_⟩ <;> simp [traceAt, chanAt, WPc.hasStream, WPc.early, WPc.late, this]

/-- Replacing worker `k` and moving the controller keeps the invariant when the new
worker is consistent, keeps its launch time and fits the new controller state. -/
theorem Invariant.set_inv {env : Env} {s : State} {k : Nat} {w w' : Worker} {c : Ctrl}
    (h : Invariant env s) (hk : s.workers[k]? = some w)
    (hw' : WorkerOk env k w') (hla : w'.launchedAt = w.launchedAt)
    (hshape : shape c s.workers.length s.iterations)
    (hck : coupled c k w'.pc)
    (hco : ∀ i v, s.workers[i]? = some v → i ≠ k → coupled c i v.pc)
    (hlast : ∀ t, lastOk s.ctrl s.now t → lastOk c s.now t) :
    Invariant env { s with ctrl := c, workers := s.workers.set k w' } := by
  refine ⟨?_, ?_, ?_⟩
  · simpa using hshape
  · intro i v hv
    simp only [List.length_set]
    rcases getElem?_set_some hv with ⟨rfl, rfl, _⟩ | ⟨hne, hv0⟩
    · obtain ⟨_, _, h3, h4, h5⟩ := h.wk i w hk
      exact ⟨hw', hck, by simpa [hla] using h3, fun hl => by simpa [hla] using h4 hl,
        fun hl => by simpa [hla] using hlast _ (h5 hl)⟩
    · obtain ⟨h1, _, h3, h4, h5⟩ := h.wk i v hv0
      exact ⟨h1, hco i v hv0 hne, h3, h4, fun hl => hlast _ (h5 hl)⟩
  · intro i j wi wj hij hi hj
    have hi' : ∃ vi, s.workers[i]? = some vi ∧ vi.launchedAt = wi.launchedAt := by
      rcases getElem?_set_some hi with ⟨rfl, rfl, _⟩ | ⟨_, hv0⟩
      · exact ⟨w, hk, hla.symm⟩
      · exact ⟨wi, hv0, rfl⟩
    have hj' : ∃ vj, s.workers[j]? = some vj ∧ vj.launchedAt = wj.launchedAt := by
      rcases getElem?_set_some hj with ⟨rfl, rfl, _⟩ | ⟨_, hv0⟩
      · exact ⟨w, hk, hla.symm⟩
      · exact ⟨wj, hv0, rfl⟩
    obtain ⟨vi, hvi, ei⟩ := hi'
    obtain ⟨vj, hvj, ej⟩ := hj'
    have := h.gap i j vi vj hij hvi hvj
    omega

theorem Invariant.handStop_inv {env : Env} {s s' : State} (h : Invariant env s)
    (hs : handStopStep s = some s') : Invariant env s' := by
  obtain ⟨c, ws, now, cd, k⟩ := s
  cases c <;> simp only [handStopStep] at hs <;> try cases hs
  rename_i ch dying
  split at hs
  · rename_i w hw
    split at hs
    · rename_i w' hw'
      cases hs
      obtain ⟨h1, h2, _⟩ := h.wk ch w hw
      obtain ⟨g1, g2, g3, g4⟩ := h1.recvStep_ok hw'
      refine Invariant.set_inv (s := ⟨.sendStop ch dying, ws, now, cd, k⟩) h hw g1 g4 h.shaped ?_ ?_ ?_
      · simp only [coupled, Ctrl.current, g3, WPc.late, if_true]
      · intro i v hv hne
        have := (h.wk i v hv).2.1
        simp [coupled, Ctrl.current, hne] at this ⊢; exact this
      · intro t ht
        cases dying <;> simpa only [lastOk] using ht
    · cases hs
  · cases hs

theorem Invariant.handDone_inv {env : Env} {s s' : State} (h : Invariant env s)
    (hs : handDoneStep s = some s') : Invariant env s' := by
  obtain ⟨c, ws, now, cd, k⟩ := s
  cases c <;> simp only [handDoneStep] at hs <;> try cases hs
  rename_i ch dying
  split at hs
  · rename_i w hw
    split at hs
    · rename_i w' hw'
      cases hs
      obtain ⟨h1, h2, _⟩ := h.wk ch w hw
      have hlate : w.pc.late = true := by simpa [coupled, Ctrl.current] using h2
      obtain ⟨g1, g2, g3⟩ := h1.sendStep_ok hlate hw'
      refine Invariant.set_inv (s := ⟨.recvDone ch dying, ws, now, cd, k⟩) h hw g1 g3 h.shaped ?_ ?_ ?_
      · simp only [coupled, Ctrl.current, g2]
      · intro i v hv hne
        have := (h.wk i v hv).2.1
        simp [coupled, Ctrl.current, hne] at this ⊢; exact this
      · intro t ht
        cases dying <;> simpa only [lastOk] using ht
    · cases hs
  · cases hs

theorem Invariant.worker_inv {env : Env} {s s' : State} {i : Nat} (h : Invariant env s)
    (hs : workerStep env i s = some s') : Invariant env s' := by
  simp only [workerStep] at hs
  split at hs
  · split at hs
    · rename_i w hw
      split at hs
      · rename_i w' hw'
        cases hs
        obtain ⟨h1, h2, _⟩ := h.wk i w hw
        obtain ⟨g1, g2, g3, g4, g5⟩ := h1.localStep_ok hw'
        have := Invariant.set_inv (c := s.ctrl) h hw g1 g2 h.shaped ?_ ?_ (fun _ ht => ht)
        · exact this
        · revert h2
          simp only [coupled]
          split
          · rename_i ch handed _
            split
            · split
              · exact g4
              · exact g3
            · intro hc
              exact absurd hc g5
          · intro hc
            exact absurd hc g5
        · intro j v hv _
          exact (h.wk j v hv).2.1
      · cases hs
    · cases hs
  · cases hs

/-- Moving only the controller keeps the invariant when the workers fit the new
controller state. -/
theorem Invariant.moveCtrl_inv {env : Env} {s : State} {c' : Ctrl} {k' : Nat}
    (h : Invariant env s)
    (hshape : shape c' s.workers.length k')
    (hco : ∀ i v, s.workers[i]? = some v → coupled s.ctrl i v.pc → coupled c' i v.pc)
    (hlast : ∀ t, t ≤ s.now → lastOk s.ctrl s.now t → lastOk c' s.now t) :
    Invariant env { s with ctrl := c', iterations := k' } := by
  refine ⟨hshape, ?_, h.gap⟩
  intro i v hv
  obtain ⟨h1, h2, h3, h4, h5⟩ := h.wk i v hv
  exact ⟨h1, hco i v hv h2, h3, h4, fun hl => hlast _ h3 (h5 hl)⟩

theorem Invariant.noWorkers {env : Env} {s : State} {c' : Ctrl} (_h : Invariant env s)
    (h0 : s.workers.length = 0) (hshape : shape c' 0 s.iterations) :
    Invariant env { s with ctrl := c' } := by
  have hnil : s.workers = [] := List.length_eq_zero.mp h0
  refine ⟨by simpa [h0] using hshape, ?_, ?_⟩
  · intro i v hv
    simp [hnil] at hv
  · intro i j wi wj _ hv
    simp [hnil] at hv

theorem Invariant.main_inv {env : Env} {s s' : State} (h : Invariant env s)
    (hs : mainStep env s = some s') : Invariant env s' := by
  obtain ⟨c, ws, now, cd, k⟩ := s
  cases c <;> simp only [mainStep] at hs <;> try cases hs
  · -- setupLogger
    have h0 : ws.length = 0 := h.shaped.1
    have hk : k = 0 := h.shaped.2
    split at hs <;> cases hs
    · exact Invariant.noWorkers (s := ⟨.setupLogger, ws, now, cd, k⟩) h h0 ⟨rfl, hk⟩
    · exact Invariant.noWorkers (s := ⟨.setupLogger, ws, now, cd, k⟩) h h0 ⟨rfl, hk⟩
  · -- newClient
    have h0 : ws.length = 0 := h.shaped.1
    have hk : k = 0 := h.shaped.2
    split at hs <;> cases hs
    · exact Invariant.noWorkers (s := ⟨.newClient, ws, now, cd, k⟩) h h0 ⟨rfl, hk⟩
    · exact Invariant.noWorkers (s := ⟨.newClient, ws, now, cd, k⟩) h h0 trivial
  · -- notifyContext
    have h0 : ws.length = 0 := h.shaped.1
    have hk : k = 0 := h.shaped.2
    have hnil : ws = [] := List.length_eq_zero.mp h0
    subst hnil
    refine ⟨hk, ?_, ?_⟩
    · intro i v hv
      simp at hv
    · intro i j wi wj _ hv
      simp at hv
  · -- loopTop: launch the next worker
    have hk : k = ws.length := h.shaped
    refine ⟨?_, ?_, ?_⟩
    · simp [shape, hk]
    · intro i v hv
      simp only [List.length_append, List.length_singleton]
      rcases getElem?_snoc_some hv with ⟨hlt, hv0⟩ | ⟨rfl, rfl⟩
      · obtain ⟨h1, h2, h3, h4, h5⟩ := h.wk i v hv0
        refine ⟨h1, ?_, h3, ?_, ?_⟩
        · have hne : i ≠ ws.length := by
            change i < ws.length at hlt
            omega
          simp only [coupled, Ctrl.current] at h2 ⊢
          simp [hne, h2]
        · intro _
          by_cases hl : i + 1 < ws.length
          · exact h4 hl
          · have hl' : i + 1 = ws.length := by
              change i < ws.length at hlt
              omega
            have := h5 hl'
            simpa only [lastOk] using this
        · intro hl
          change i < ws.length at hlt
          omega
      · refine ⟨⟨rfl, rfl, ?_, ?_, rfl⟩, ?_, ?_, ?_, ?_⟩
        · intro hc
          simp [Worker.fresh, WPc.hasStream] at hc
        · intro hc
          simp [Worker.fresh] at hc
        · simp [coupled, Ctrl.current, Worker.fresh, WPc.early]
        · simp [Worker.fresh]
        · intro hl
          omega
        · intro _
          trivial
    · intro i j wi wj hij hi hj
      rcases getElem?_snoc_some hj with ⟨hjl, hj0⟩ | ⟨rfl, rfl⟩
      · rcases getElem?_snoc_some hi with ⟨_, hi0⟩ | ⟨rfl, rfl⟩
        · exact h.gap i j wi wj hij hi0 hj0
        · change j < ws.length at hjl
          omega
      · rcases getElem?_snoc_some hi with ⟨hil, hi0⟩ | ⟨hil, rfl⟩
        · obtain ⟨_, _, _, h4, h5⟩ := h.wk i wi hi0
          change i < ws.length at hil
          show wi.launchedAt + interval ≤ now
          by_cases hl : i + 1 < ws.length
          · exact h4 hl
          · have := h5 (by show i + 1 = ws.length; omega)
            simpa only [lastOk] using this
        · omega
  · -- enterSelect
    rename_i ch
    refine Invariant.moveCtrl_inv (s := ⟨.enterSelect ch, ws, now, cd, k⟩) h h.shaped ?_ ?_
    · intro i v _ hc
      simpa only [coupled, Ctrl.current] using hc
    · intro t ht _
      show t + interval ≤ now + interval
      change t ≤ now at ht
      omega
  · -- checkDying
    rename_i ch dying
    split at hs <;> cases hs
    · refine Invariant.moveCtrl_inv (s := ⟨.checkDying ch dying, ws, now, cd, k⟩) h trivial ?_ ?_
      · intro i v _ hc
        simpa only [coupled, Ctrl.current] using hc
      · intro t _ _
        trivial
    · rename_i hd
      have hsh : ch + 1 = ws.length ∧ k = ch := h.shaped
      refine Invariant.moveCtrl_inv (s := ⟨.checkDying ch dying, ws, now, cd, k⟩) h
        (show k + 1 = ws.length by omega) ?_ ?_
      · intro i v _ hc
        simpa only [coupled, Ctrl.current] using hc
      · intro t _ hl
        have hd' : dying = false := by simpa using hd
        subst hd'
        simpa only [lastOk] using hl
  · -- wgWait
    split at hs <;> cases hs
    refine Invariant.moveCtrl_inv (s := ⟨.wgWait, ws, now, cd, k⟩) h trivial ?_ ?_
    · intro i v _ hc
      simpa only [coupled, Ctrl.current] using hc
    · intro t _ _
      trivial

/-- One step keeps the invariant. -/
theorem Invariant.step_inv {env : Env} {a : Action} {s s' : State} (h : Invariant env s)
    (hs : step env a s = some s') : Invariant env s' := by
  cases a <;> simp only [RspiMicRecorder.step] at hs
  · exact h.main_inv hs
  · exact h.selectCtx_inv hs
  · exact h.selectTimer_inv hs
  · exact h.handStop_inv hs
  · exact h.handDone_inv hs
  · exact h.worker_inv hs
  · split at hs <;> cases hs
    exact h.tick_inv _
  · split at hs <;> cases hs
    exact h.signal_inv

/-- Every run keeps the invariant. -/
theorem Invariant.run_inv {env : Env} {acts : List Action} {s s' : State} (h : Invariant env s)
    (hs : run env acts s = some s') : Invariant env s' := by
  induction acts generalizing s with
  | nil =>
      simp only [RspiMicRecorder.run, Option.some.injEq] at hs
      exact hs ▸ h
  | cons a rest ih =>
      simp only [RspiMicRecorder.run] at hs
      split at hs
      · rename_i s1 h1
        exact ih (h.step_inv h1) hs
      · cases hs

/-- Every reachable state satisfies the invariant. -/
theorem Invariant.reachable_inv {env : Env} {t0 : Nat} {s : State} (h : Reachable env t0 s) :
    Invariant env s := by
  obtain ⟨acts, hacts⟩ := h
  exact (Invariant.init_inv env t0).run_inv hacts

theorem workerPath_true (name : String) : workerPath true name = traceAt name .returned := rfl

theorem workerPath_false (name : String) : workerPath false name =
    [.createFile (name ++ ".wav") 44100 1, .newRecord false, .send RECORD_AUDIO_SUCCESS] := rfl

/-- What the invariant says about one worker of a reachable state. -/
theorem Reachable.worker_ok {env : Env} {t0 : Nat} {s : State} {i : Nat} {w : Worker}
    (hr : Reachable env t0 s) (hw : s.workers[i]? = some w) :
    WorkerOk env i w ∧ coupled s.ctrl i w.pc :=
  ⟨((Invariant.reachable_inv hr).wk i w hw).1, ((Invariant.reachable_inv hr).wk i w hw).2.1⟩

/-- A worker whose `c.NewRecord` failed is the current one and has not been handed
the stop instruction. -/
theorem failed_worker_current {env : Env} {s : State} {i : Nat} {w : Worker}
    (h : Invariant env s) (hw : s.workers[i]? = some w) (hf : env.newRecordOk i = false) :
    w.pc.hasStream = false ∧ s.ctrl.current = some (i, false) := by
  obtain ⟨h1, h2, _⟩ := h.wk i w hw
  have hns : w.pc.hasStream = false := by
    cases hh : w.pc.hasStream
    · rfl
    · have := h1.stream_ok hh
      rw [hf] at this
      cases this
  refine ⟨hns, ?_⟩
  simp only [coupled] at h2
  split at h2
  · rename_i ch handed hcur
    split at h2
    · rename_i hi
      subst hi
      split at h2
      · exfalso
        cases hp : w.pc <;> simp [hp, WPc.late, WPc.hasStream] at h2 hns
      · rename_i hh
        have : handed = false := by simpa using hh
        rw [hcur, this]
    · rw [h2] at hns
      simp [WPc.hasStream] at hns
  · rw [h2] at hns
    simp [WPc.hasStream] at hns

/-- With the controller blocked in its send of the stop instruction and the worker
blocked in its early send, no step changes either of them. -/
theorem stuck_step {env : Env} {s s' : State} {a : Action} {ch : Nat} {d : Bool} {w : Worker}
    (h : Invariant env s) (hc : s.ctrl = .sendStop ch d) (hw : s.workers[ch]? = some w)
    (hpc : w.pc = .sendFail) (hs : step env a s = some s') :
    s'.ctrl = s.ctrl ∧ s'.workers = s.workers := by
  obtain ⟨c, ws, now, cd, k⟩ := s
  simp only at hc hw
  subst hc
  cases a <;> simp only [step, mainStep, selectCtxStep, selectTimerStep, handStopStep,
    handDoneStep] at hs
  · cases hs
  · cases hs
  · cases hs
  · rw [hw] at hs
    simp only [Worker.recvStep, hpc] at hs
    cases hs
  · cases hs
  · rename_i j
    simp only [workerStep] at hs
    split at hs
    · split at hs
      · rename_i v hv
        split at hs
        · rename_i v' hv'
          exfalso
          by_cases hj : j = ch
          · subst hj
            rw [hw] at hv
            cases hv
            simp [Worker.localStep, hpc] at hv'
          · have hco := (h.wk j v hv).2.1
            simp only [coupled, Ctrl.current, hj, if_false] at hco
            simp [Worker.localStep, hco] at hv'
        · cases hs
      · cases hs
    · cases hs
  · split at hs <;> cases hs
    exact ⟨rfl, rfl⟩
  · split at hs <;> cases hs
    exact ⟨rfl, rfl⟩

/-- The blocked state of `stuck_step` lasts for every continuation. -/
theorem stuck_run {env : Env} {acts : List Action} {s s' : State} {ch : Nat} {d : Bool}
    {w : Worker} (h : Invariant env s) (hc : s.ctrl = .sendStop ch d)
    (hw : s.workers[ch]? = some w) (hpc : w.pc = .sendFail)
    (hs : run env acts s = some s') :
    s'.ctrl = .sendStop ch d ∧ s'.workers = s.workers := by
  induction acts generalizing s with
  | nil =>
      simp only [run, Option.some.injEq] at hs
      subst hs
      exact ⟨hc, rfl⟩
  | cons a rest ih =>
      simp only [run] at hs
      split at hs
      · rename_i s1 h1
        obtain ⟨e1, e2⟩ := stuck_step h hc hw hpc h1
        have := ih (h.step_inv h1) (e1.trans hc) (by rw [e2]; exact hw) hs
        rw [e2] at this
        exact this
      · cases hs

theorem reachable_stateAfter_fail : Reachable envRecordFails 0 (stateAfter envRecordFails failSchedule) :=
  ⟨failSchedule, rfl⟩

theorem reachable_stateAfter_shutdown : Reachable envOk 0 (stateAfter envOk shutdownSchedule) :=
  ⟨shutdownSchedule, rfl⟩

theorem reachable_stateAfter_two : Reachable envOk 0 (stateAfter envOk twoSegmentSchedule) :=
  ⟨twoSegmentSchedule, rfl⟩

/-- C1: on every segment's channel the completed sends are at any time nothing, the
stop alone, or the stop followed by the done, and they are stop then done once the
worker has returned; but when `c.NewRecord` failed for the segment no send ever
completes on its channel and its worker never returns, so the single done of the
failure path is never a completed send. -/
theorem handshake_sends (env : Env) (t0 : Nat) (s : State) (i : Nat) (w : Worker)
    (hr : Reachable env t0 s) (hw : s.workers[i]? = some w) :
    (w.recordAudioChan = [] ∨ w.recordAudioChan = [RECORD_AUDIO_STOP] ∨
      w.recordAudioChan = [RECORD_AUDIO_STOP, RECORD_AUDIO_SUCCESS]) ∧
    (w.pc = .returned → w.recordAudioChan = [RECORD_AUDIO_STOP, RECORD_AUDIO_SUCCESS]) ∧
    (env.newRecordOk i = false → w.recordAudioChan = [] ∧ w.pc ≠ .returned) := by
  have hinv := Invariant.reachable_inv hr
  obtain ⟨h1, _⟩ := hr.worker_ok hw
  have hchan := h1.chan_eq
  refine ⟨?_, ?_, ?_⟩
  · cases hp : w.pc <;> simp [hp, chanAt] at hchan <;> simp [hchan]
  · intro hp
    simpa [hp, chanAt] using hchan
  · intro hf
    obtain ⟨hns, _⟩ := failed_worker_current hinv hw hf
    cases hp : w.pc <;> simp [hp, chanAt, WPc.hasStream] at hchan hns ⊢ <;> exact hchan

/-- C1 at the failing input: `c.NewRecord` fails for segment 0, the timer has fired,
and the channel of segment 0 has no completed send. -/
theorem handshake_sends_witness :
    ((stateAfter envRecordFails failSchedule).workers.map Worker.recordAudioChan = [[]]) ∧
    ((stateAfter envRecordFails failSchedule).workers.map Worker.pc = [.sendFail]) :=
  ⟨by
    have h := (handshake_sends envRecordFails 0 (stateAfter envRecordFails failSchedule) 0
      ((stateAfter envRecordFails failSchedule).workers.get ⟨0, by decide⟩)
      reachable_stateAfter_fail rfl).2.2 rfl
    exact congrArg (fun x => [x]) h.1, rfl⟩

/-- C3: when `c.NewRecord` fails for the segment on channel `ch`, the controller never
receives the early done on that channel (it is never at or past the receive of line
126 for it), no further segment is started, and once the controller stands in its send
of the stop instruction while the worker stands in its early send, every continuation
leaves both of them there: the two parties block each other for good. -/
theorem record_failure_blocks (env : Env) (t0 : Nat) (s : State) (ch : Nat)
    (hr : Reachable env t0 s) (hf : env.newRecordOk ch = false) :
    s.workers.length ≤ ch + 1 ∧
    (∀ d, s.ctrl ≠ .recvDone ch d ∧ s.ctrl ≠ .checkDying ch d) ∧
    (∀ d w, s.ctrl = .sendStop ch d → s.workers[ch]? = some w → w.pc = .sendFail →
      ∀ acts s', run env acts s = some s' → s'.ctrl = .sendStop ch d ∧ s'.workers = s.workers) := by
  have hinv := Invariant.reachable_inv hr
  refine ⟨?_, ?_, ?_⟩
  · by_contra hlen
    have hlt : ch < s.workers.length := by omega
    obtain ⟨hns, hcur⟩ := failed_worker_current hinv (List.getElem?_eq_getElem hlt) hf
    have hsh := hinv.shaped
    cases hc : s.ctrl <;> simp [hc, Ctrl.current] at hcur <;> simp only [hc, shape] at hsh <;> omega
  · intro d
    constructor
    · intro hc
      have hsh := hinv.shaped
      simp only [hc, shape] at hsh
      have hlt : ch < s.workers.length := by omega
      obtain ⟨_, hcur⟩ := failed_worker_current hinv (List.getElem?_eq_getElem hlt) hf
      simp [hc, Ctrl.current] at hcur
    · intro hc
      have hsh := hinv.shaped
      simp only [hc, shape] at hsh
      have hlt : ch < s.workers.length := by omega
      obtain ⟨_, hcur⟩ := failed_worker_current hinv (List.getElem?_eq_getElem hlt) hf
      simp [hc, Ctrl.current] at hcur
  · intro d w hc hw hpc acts s' hs
    exact stuck_run hinv hc hw hpc hs

/-- C3 at the failing input: `c.NewRecord` fails for segment 0 and the timer has fired;
the controller stands in its send, the worker in its early send, and after any further
steps (here: the shutdown signal and more time) both still stand there. -/
theorem record_failure_blocks_witness :
    (stateAfter envRecordFails failSchedule).ctrl = .sendStop 0 false ∧
    (stateAfter envRecordFails failSchedule).workers.map Worker.pc = [.sendFail] ∧
    (∀ acts s', run envRecordFails acts (stateAfter envRecordFails failSchedule) = some s' →
      s'.ctrl = .sendStop 0 false ∧
      s'.workers = (stateAfter envRecordFails failSchedule).workers) ∧
    (stateAfter envRecordFails (failSchedule ++ [.signal, .tick interval])).ctrl
      = .sendStop 0 false :=
  ⟨rfl, rfl,
    (record_failure_blocks envRecordFails 0 (stateAfter envRecordFails failSchedule) 0
      reachable_stateAfter_fail rfl).2.2 false
      ((stateAfter envRecordFails failSchedule).workers.get ⟨0, by decide⟩) rfl rfl rfl,
    rfl⟩

/-- C2: in every reachable state in which the controller has received the done of the
current channel (it stands at the test of `dying`), that channel's worker has executed
`stream.Stop()` and then `file.Close()` before its send, and in every reachable state
in which the controller has left the loop every worker has done so: no file of a
launched worker is unclosed. -/
theorem closed_before_leaving (env : Env) (t0 : Nat) (s : State)
    (hr : Reachable env t0 s) :
    (∀ ch dying w, s.ctrl = .checkDying ch dying → s.workers[ch]? = some w →
      w.trace = [.createFile (w.audioName ++ ".wav") 44100 1, .newRecord true, .streamStart,
        .recv RECORD_AUDIO_STOP, .streamStop, .fileClose, .send RECORD_AUDIO_SUCCESS]) ∧
    (s.ctrl.leftLoop = true → ∀ w ∈ s.workers,
      w.trace = [.createFile (w.audioName ++ ".wav") 44100 1, .newRecord true, .streamStart,
        .recv RECORD_AUDIO_STOP, .streamStop, .fileClose, .send RECORD_AUDIO_SUCCESS] ∧
      w.streamOpen = false) := by
  have hinv := Invariant.reachable_inv hr
  constructor
  · intro ch dying w hc hw
    obtain ⟨h1, h2, _⟩ := hinv.wk ch w hw
    simp only [hc, coupled, Ctrl.current] at h2
    have := h1.trace_eq
    rw [h2] at this
    exact this
  · intro hl w hmem
    obtain ⟨i, hw⟩ := List.mem_iff_getElem?.mp hmem
    obtain ⟨h1, h2, _⟩ := hinv.wk i w hw
    have hret : w.pc = .returned := by
      cases hc : s.ctrl <;> simp [hc, Ctrl.leftLoop] at hl <;>
        simpa only [hc, coupled, Ctrl.current] using h2
    have ht := h1.trace_eq
    rw [hret] at ht
    refine ⟨ht, ?_⟩
    simp [Worker.streamOpen, ht, traceAt]

/-- C2 on a run: one segment is recorded for 3 s, the shutdown signal arrives, and
`main` returns; the file of the segment has been closed. -/
theorem closed_before_leaving_witness :
    (stateAfter envOk shutdownSchedule).ctrl = .returned ∧
    (stateAfter envOk shutdownSchedule).workers.length = 1 ∧
    ∀ w ∈ (stateAfter envOk shutdownSchedule).workers,
      w.trace = [.createFile (w.audioName ++ ".wav") 44100 1, .newRecord true, .streamStart,
        .recv RECORD_AUDIO_STOP, .streamStop, .fileClose, .send RECORD_AUDIO_SUCCESS] ∧
      w.streamOpen = false :=
  ⟨rfl, rfl,
    (closed_before_leaving envOk 0 (stateAfter envOk shutdownSchedule)
      reachable_stateAfter_shutdown).2 rfl⟩

/-- C4: in every reachable state at most one worker has a capture stream that is started
and not yet stopped, and every worker but the latest has returned after receiving the
stop, stopping its stream, closing its file and having its done received, in that
order. -/
theorem one_open_stream (env : Env) (t0 : Nat) (s : State) (hr : Reachable env t0 s) :
    (∀ (i j : Nat) (wi wj : Worker), s.workers[i]? = some wi → s.workers[j]? = some wj →
      wi.streamOpen = true → wj.streamOpen = true → i = j) ∧
    (∀ i w, s.workers[i]? = some w → i + 1 < s.workers.length →
      w.pc = .returned ∧
      w.recordAudioChan = [RECORD_AUDIO_STOP, RECORD_AUDIO_SUCCESS] ∧
      w.trace = [.createFile (w.audioName ++ ".wav") 44100 1, .newRecord true, .streamStart,
        .recv RECORD_AUDIO_STOP, .streamStop, .fileClose, .send RECORD_AUDIO_SUCCESS]) := by
  have hinv := Invariant.reachable_inv hr
  have key : ∀ i w, s.workers[i]? = some w → w.pc ≠ .returned →
      ∃ b, s.ctrl.current = some (i, b) := by
    intro i w hw hne
    have h2 := (hinv.wk i w hw).2.1
    simp only [coupled] at h2
    split at h2
    · rename_i ch handed hcur
      split at h2
      · rename_i hi
        subst hi
        exact ⟨handed, hcur⟩
      · exact absurd h2 hne
    · exact absurd h2 hne
  have notOpen : ∀ (i : Nat) (w : Worker), s.workers[i]? = some w → w.pc = .returned →
      w.streamOpen = false := by
    intro i w hw hp
    have ht := ((hinv.wk i w hw).1).trace_eq
    rw [hp] at ht
    simp [Worker.streamOpen, ht, traceAt]
  constructor
  · intro i j wi wj hi hj hoi hoj
    have hni : wi.pc ≠ .returned := by
      intro hp
      rw [notOpen i wi hi hp] at hoi
      cases hoi
    have hnj : wj.pc ≠ .returned := by
      intro hp
      rw [notOpen j wj hj hp] at hoj
      cases hoj
    obtain ⟨bi, hbi⟩ := key i wi hi hni
    obtain ⟨bj, hbj⟩ := key j wj hj hnj
    rw [hbi] at hbj
    simp only [Option.some.injEq, Prod.mk.injEq] at hbj
    exact hbj.1
  · intro i w hw hlt
    have hret : w.pc = .returned := by
      by_contra hne
      obtain ⟨b, hb⟩ := key i w hw hne
      have hsh := hinv.shaped
      cases hc : s.ctrl <;> simp [hc, Ctrl.current] at hb <;> simp only [hc, shape] at hsh <;> omega
    obtain ⟨h1, _⟩ := hinv.wk i w hw
    have ht := h1.trace_eq
    have hch := h1.chan_eq
    rw [hret] at ht hch
    exact ⟨hret, hch, ht⟩

/-- C4 on a run: the first segment is complete and the second has its stream started;
only the second worker's stream is open. -/
theorem one_open_stream_witness :
    (stateAfter envOk twoSegmentSchedule).workers.map Worker.streamOpen = [false, true] ∧
    (∀ (i j : Nat) (wi wj : Worker), (stateAfter envOk twoSegmentSchedule).workers[i]? = some wi →
      (stateAfter envOk twoSegmentSchedule).workers[j]? = some wj →
      wi.streamOpen = true → wj.streamOpen = true → i = j) :=
  ⟨by decide, (one_open_stream envOk 0 (stateAfter envOk twoSegmentSchedule)
    reachable_stateAfter_two).1⟩

/-- C9: the complete path of the worker body after a successful `c.NewRecord` is: create
the file, obtain the stream, start it, receive the stop, stop the stream, close the
file, send the done; on both paths there is exactly one send and it is the last
statement; and in every reachable state what a worker has executed is an initial part
of the path of its `c.NewRecord` outcome, the whole path once it has returned, after
which it has no further statement. -/
theorem worker_order (env : Env) (t0 : Nat) (s : State) (i : Nat) (w : Worker)
    (hr : Reachable env t0 s) (hw : s.workers[i]? = some w) :
    workerPath true w.audioName =
      [.createFile (w.audioName ++ ".wav") 44100 1, .newRecord true, .streamStart,
        .recv RECORD_AUDIO_STOP, .streamStop, .fileClose, .send RECORD_AUDIO_SUCCESS] ∧
    (∀ ok, ((workerPath ok w.audioName).filter WEvent.isSend).length = 1 ∧
      (workerPath ok w.audioName).getLast? = some (.send RECORD_AUDIO_SUCCESS)) ∧
    w.trace <+: workerPath (env.newRecordOk i) w.audioName ∧
    (w.pc = .returned → w.trace = workerPath (env.newRecordOk i) w.audioName ∧
      ∀ ok now, w.next ok now = none) ∧
    (∀ v, WEvent.send v ∈ w.trace → w.pc = .returned) := by
  obtain ⟨h1, _⟩ := hr.worker_ok hw
  obtain ⟨ht, _, hs, hf, _⟩ := h1
  refine ⟨rfl, ?_, ?_, ?_, ?_⟩
  · intro ok
    cases ok
    · exact ⟨rfl, rfl⟩
    · exact ⟨rfl, rfl⟩
  · rw [ht]
    cases hp : w.pc
    case createFile => exact List.nil_prefix
    case newRecord =>
      cases env.newRecordOk i
      · rw [workerPath_false]; simp [traceAt]
      · rw [workerPath_true]; simp [traceAt]
    case sendFail =>
      rw [hf hp, workerPath_false]; simp [traceAt]
    all_goals
      rw [hs (by rw [hp]; rfl), workerPath_true]
      try simp [traceAt]
  · intro hp
    refine ⟨?_, ?_⟩
    · rw [ht, hs (by rw [hp]; rfl), workerPath_true, hp]
    · intro ok now
      simp [Worker.next, Worker.localStep, Worker.recvStep, Worker.sendStep, Worker.offer, hp]
  · intro v hv
    rw [ht] at hv
    cases hp : w.pc <;> simp [hp, traceAt] at hv
    rfl

/-- C9 on a run: the worker of the segment that the shutdown signal ended has executed
the whole path. -/
theorem worker_order_witness :
    (stateAfter envOk shutdownSchedule).workers.map Worker.trace =
      [[.createFile ".wav" 44100 1, .newRecord true, .streamStart,
        .recv RECORD_AUDIO_STOP, .streamStop, .fileClose, .send RECORD_AUDIO_SUCCESS]] ∧
    ((stateAfter envOk shutdownSchedule).workers.get ⟨0, by decide⟩).trace <+:
      workerPath true "" :=
  ⟨by decide, (worker_order envOk 0 (stateAfter envOk shutdownSchedule) 0
    ((stateAfter envOk shutdownSchedule).workers.get ⟨0, by decide⟩)
    reachable_stateAfter_shutdown rfl).2.2.1⟩

/-- C10: a worker whose `c.NewRecord` failed never calls `file.Close()`,
`stream.Start()` or `stream.Stop()`; when it stands at its early send it has created the
file and obtained no stream, and the value it offers is `RECORD_AUDIO_SUCCESS` (0), as
on the success path; `RECORD_AUDIO_FAIL` is neither offered nor sent by any worker.
But that worker never completes its send and never returns: in every reachable state
its trace holds no send, its channel has no completed send, and it has not returned. -/
theorem failure_path (env : Env) (t0 : Nat) (s : State) (i : Nat) (w : Worker)
    (hr : Reachable env t0 s) (hw : s.workers[i]? = some w) :
    (env.newRecordOk i = false →
      WEvent.fileClose ∉ w.trace ∧ WEvent.streamStart ∉ w.trace ∧
      WEvent.streamStop ∉ w.trace ∧
      (w.pc = .sendFail →
        w.trace = [.createFile (w.audioName ++ ".wav") 44100 1, .newRecord false] ∧
        w.offer = some RECORD_AUDIO_SUCCESS) ∧
      w.pc ≠ .returned ∧ (∀ v, WEvent.send v ∉ w.trace) ∧ w.recordAudioChan = []) ∧
    (∀ v, w.offer = some v → v = RECORD_AUDIO_SUCCESS ∧ v = 0 ∧ v ≠ RECORD_AUDIO_FAIL) ∧
    WEvent.send RECORD_AUDIO_FAIL ∉ w.trace ∧
    RECORD_AUDIO_FAIL ∉ w.recordAudioChan := by
  have hinv := Invariant.reachable_inv hr
  obtain ⟨h1, _⟩ := hr.worker_ok hw
  obtain ⟨ht, hch, hs, hf, _⟩ := h1
  refine ⟨?_, ?_, ?_, ?_⟩
  · intro hfail
    obtain ⟨hns, _⟩ := failed_worker_current hinv hw hfail
    rw [ht, hch]
    cases hp : w.pc <;> simp [hp, WPc.hasStream] at hns <;>
      simp [traceAt, chanAt, Worker.offer, hp]
  · intro v hv
    cases hp : w.pc <;> simp [Worker.offer, hp] at hv <;> subst hv <;> decide
  · rw [ht]
    cases hp : w.pc <;> simp [traceAt]
    decide
  · rw [hch]
    cases hp : w.pc <;> simp [chanAt] <;> decide

/-- C10 at the failing input: `c.NewRecord` fails for segment 0, the timer fires, then
the shutdown signal arrives and 7 more seconds pass; the worker still stands at its
early send, having only created the file: it has not returned and no send is
complete. -/
theorem failure_path_witness :
    (stateAfter envRecordFails failLaterSchedule).workers.map
        Worker.trace = [[.createFile ".wav" 44100 1, .newRecord false]] ∧
    (stateAfter envRecordFails failLaterSchedule).workers.map
        Worker.pc = [.sendFail] ∧
    ((stateAfter envRecordFails failLaterSchedule).workers.get
        ⟨0, by decide⟩).pc ≠ .returned ∧
    ((stateAfter envRecordFails failLaterSchedule).workers.get
        ⟨0, by decide⟩).recordAudioChan = [] :=
  ⟨by decide, by decide,
   ((failure_path envRecordFails 0
      (stateAfter envRecordFails failLaterSchedule) 0
      ((stateAfter envRecordFails failLaterSchedule).workers.get
        ⟨0, by decide⟩)
      ⟨failLaterSchedule, rfl⟩ rfl).1 rfl).2.2.2.2.1,
   ((failure_path envRecordFails 0
      (stateAfter envRecordFails failLaterSchedule) 0
      ((stateAfter envRecordFails failLaterSchedule).workers.get
        ⟨0, by decide⟩)
      ⟨failLaterSchedule, rfl⟩ rfl).1 rfl).2.2.2.2.2.2⟩

/-- How one step can move the controller. -/
theorem step_ctrl {env : Env} {a : Action} {s s' : State} (hs : step env a s = some s') :
    s'.ctrl = s.ctrl ∨ (a = .main ∧ mainStep env s = some s') ∨
      (∃ ch d, s'.ctrl = .sendStop ch d ∧ ∃ dl, s.ctrl = .select ch dl) ∨
      (∃ ch d, s'.ctrl = .recvDone ch d ∧ s.ctrl = .sendStop ch d) ∨
      (∃ ch d, s'.ctrl = .checkDying ch d ∧ s.ctrl = .recvDone ch d) := by
  obtain ⟨c, ws, now, cd, k⟩ := s
  cases a <;> simp only [RspiMicRecorder.step] at hs
  · exact Or.inr (Or.inl ⟨rfl, hs⟩)
  · cases c <;> simp only [selectCtxStep] at hs <;> try cases hs
    split at hs <;> cases hs
    exact Or.inr (Or.inr (Or.inl ⟨_, _, rfl, _, rfl⟩))
  · cases c <;> simp only [selectTimerStep] at hs <;> try cases hs
    split at hs <;> cases hs
    exact Or.inr (Or.inr (Or.inl ⟨_, _, rfl, _, rfl⟩))
  · cases c <;> simp only [handStopStep] at hs <;> try cases hs
    split at hs
    · split at hs <;> cases hs
      exact Or.inr (Or.inr (Or.inr (Or.inl ⟨_, _, rfl, rfl⟩)))
    · cases hs
  · cases c <;> simp only [handDoneStep] at hs <;> try cases hs
    split at hs
    · split at hs <;> cases hs
      exact Or.inr (Or.inr (Or.inr (Or.inr ⟨_, _, rfl, rfl⟩)))
    · cases hs
  · simp only [workerStep] at hs
    split at hs
    · split at hs
      · split at hs <;> cases hs
        exact Or.inl rfl
      · cases hs
    · cases hs
  · split at hs <;> cases hs
    exact Or.inl rfl
  · split at hs <;> cases hs
    exact Or.inl rfl

theorem StartupOk.step_startup {env : Env} {a : Action} {s s' : State} (h : StartupOk env s)
    (hs : step env a s = some s') : StartupOk env s' := by
  obtain ⟨h1, h2⟩ := h
  constructor
  · intro hf
    rcases step_ctrl hs with e | ⟨_, hm⟩ | ⟨ch, d, _, dl, e⟩ | ⟨ch, d, _, e⟩ | ⟨ch, d, _, e⟩
    · rw [e]
      exact h1 hf
    · obtain ⟨c, ws, now, cd, k⟩ := s
      rcases h1 hf with e | e <;> simp only at e <;> subst e <;>
        simp only [mainStep, setupLogger, hf] at hm
      · simp at hm
        subst hm
        exact Or.inr rfl
      · cases hm
    · rcases h1 hf with e' | e' <;> rw [e'] at e <;> cases e
    · rcases h1 hf with e' | e' <;> rw [e'] at e <;> cases e
    · rcases h1 hf with e' | e' <;> rw [e'] at e <;> cases e
  · intro hok hf
    obtain ⟨c, ws, now, cd, k⟩ := s
    obtain ⟨hc, hnil⟩ := h2 hok hf
    simp only at hc hnil
    subst hnil
    rcases hc with e | e | e <;> subst e <;> cases a <;>
      simp [RspiMicRecorder.step, mainStep, selectCtxStep, selectTimerStep, handStopStep,
        handDoneStep, workerStep, Ctrl.alive, Ctrl.armed, setupLogger, hf, hok] at hs
    · subst hs
      exact ⟨Or.inr (Or.inl rfl), rfl⟩
    · subst hs
      exact ⟨Or.inl rfl, rfl⟩
    · subst hs
      exact ⟨Or.inr (Or.inr rfl), rfl⟩
    · subst hs
      exact ⟨Or.inr (Or.inl rfl), rfl⟩

theorem StartupOk.reachable_startup {env : Env} {t0 : Nat} {s : State} (hr : Reachable env t0 s) :
    StartupOk env s := by
  obtain ⟨acts, hacts⟩ := hr
  have h0 : StartupOk env (init t0) := ⟨fun _ => Or.inl rfl, fun _ _ => ⟨Or.inl rfl, rfl⟩⟩
  generalize init t0 = s0 at hacts h0
  induction acts generalizing s0 with
  | nil =>
      simp only [run, Option.some.injEq] at hacts
      exact hacts ▸ h0
  | cons a rest ih =>
      simp only [run] at hacts
      split at hacts
      · rename_i s1 h1
        exact ih s1 hacts (h0.step_startup h1)
      · cases hacts

/-- C6: when the log file cannot be opened, `setupLogger` returns an error, the first
step of `main` is `os.Exit(1)`, and the process is only ever before that call or exited
with status 1; when the log file opens and `pulse.NewClient` fails, `main` returns after
two steps without `os.Exit`, and the process is only ever in startup or returned; in
both cases no worker is ever launched and no file is ever created. -/
theorem startup_failure (env : Env) (t0 : Nat) :
    (env.openLogOk = false →
      setupLogger env.openLogOk env.debugMode = .error "error opening log file" ∧
      step env .main (init t0) = some { init t0 with ctrl := .exited 1 } ∧
      ∀ s, Reachable env t0 s →
        (s.ctrl = .setupLogger ∨ s.ctrl = .exited 1) ∧
        s.workers = [] ∧ createdFiles s.workers = []) ∧
    (env.openLogOk = true → env.newClientOk = false →
      run env [.main, .main] (init t0) = some { init t0 with ctrl := .returned } ∧
      ∀ s, Reachable env t0 s →
        (s.ctrl = .setupLogger ∨ s.ctrl = .newClient ∨ s.ctrl = .returned) ∧
        s.workers = [] ∧ createdFiles s.workers = []) := by
  constructor
  · intro hf
    refine ⟨by simp [setupLogger, hf], by simp [step, mainStep, init, setupLogger, hf], ?_⟩
    intro s hr
    have h1 := (StartupOk.reachable_startup hr).1 hf
    have hsh := (Invariant.reachable_inv hr).shaped
    have hnil : s.workers = [] := by
      rcases h1 with e | e <;> rw [e] at hsh <;> exact List.length_eq_zero.mp hsh.1
    exact ⟨h1, hnil, by rw [hnil]; rfl⟩
  · intro hok hf
    refine ⟨by simp [run, step, mainStep, init, setupLogger, hok, hf], ?_⟩
    intro s hr
    obtain ⟨h2, hnil⟩ := (StartupOk.reachable_startup hr).2 hok hf
    exact ⟨h2, hnil, by rw [hnil]; rfl⟩

/-- C6 at two inputs: with the log file unopenable the process exits with status 1 at
its first step, with `pulse.NewClient` failing `main` returns at its second; neither
run can be continued by a worker launch. -/
theorem startup_failure_witness :
    step { envOk with openLogOk := false } .main (init 0)
      = some { init 0 with ctrl := .exited 1 } ∧
    run { envOk with newClientOk := false } [.main, .main] (init 0)
      = some { init 0 with ctrl := .returned } ∧
    (∀ s, Reachable { envOk with newClientOk := false } 0 s →
      (s.ctrl = .setupLogger ∨ s.ctrl = .newClient ∨ s.ctrl = .returned) ∧
      s.workers = [] ∧ createdFiles s.workers = []) :=
  ⟨((startup_failure { envOk with openLogOk := false } 0).1 rfl).2.1,
   ((startup_failure { envOk with newClientOk := false } 0).2 rfl rfl).1,
   ((startup_failure { envOk with newClientOk := false } 0).2 rfl rfl).2⟩

theorem mem_createdFiles {f : WavFile} {ws : List Worker} :
    f ∈ createdFiles ws ↔ ∃ w ∈ ws, f ∈ w.created := by
  induction ws with
  | nil => simp [createdFiles]
  | cons w ws ih => simp [createdFiles, ih]

theorem createdFiles_eq_map {ws : List Worker} (h : ∀ w ∈ ws, w.created = [w.wav]) :
    createdFiles ws = ws.map Worker.wav := by
  induction ws with
  | nil => rfl
  | cons w ws ih =>
      simp only [createdFiles, List.map_cons]
      rw [h w (List.mem_cons_self _ _), ih (fun v hv => h v (List.mem_cons_of_mem _ hv))]
      rfl

theorem WorkerOk.created_sub {env : Env} {i : Nat} {w : Worker} (h : WorkerOk env i w)
    {f : WavFile} (hf : f ∈ w.created) : f = w.wav := by
  have ht := h.trace_eq
  simp only [Worker.created, ht] at hf
  cases hp : w.pc <;> simp [hp, traceAt, WEvent.created] at hf <;> rw [hf] <;> rfl

theorem WorkerOk.created_returned {env : Env} {i : Nat} {w : Worker} (h : WorkerOk env i w)
    (hp : w.pc = .returned) : w.created = [w.wav] := by
  have ht := h.trace_eq
  simp only [Worker.created, ht, hp]
  rfl

/-- How one step can change the list of workers. -/
theorem step_workers {env : Env} {a : Action} {s s' : State} (hs : step env a s = some s') :
    s'.workers = s.workers ∨
    (∃ i w w', s.workers[i]? = some w ∧ s'.workers = s.workers.set i w' ∧
      w'.audioName = w.audioName) ∨
    (s.ctrl = .loopTop ∧ ∃ w, s'.workers = s.workers ++ [w]) := by
  obtain ⟨c, ws, now, cd, k⟩ := s
  cases a <;> simp only [RspiMicRecorder.step] at hs
  · cases c <;> simp only [mainStep] at hs <;> try cases hs
    · split at hs <;> cases hs <;> exact Or.inl rfl
    · split at hs <;> cases hs <;> exact Or.inl rfl
    · exact Or.inl rfl
    · exact Or.inr (Or.inr ⟨rfl, _, rfl⟩)
    · exact Or.inl rfl
    · split at hs <;> cases hs <;> exact Or.inl rfl
    · split at hs <;> cases hs
      exact Or.inl rfl
  · cases c <;> simp only [selectCtxStep] at hs <;> try cases hs
    split at hs <;> cases hs
    exact Or.inl rfl
  · cases c <;> simp only [selectTimerStep] at hs <;> try cases hs
    split at hs <;> cases hs
    exact Or.inl rfl
  · cases c <;> simp only [handStopStep] at hs <;> try cases hs
    split at hs
    · rename_i w hw
      split at hs
      · rename_i w' hw'
        cases hs
        refine Or.inr (Or.inl ⟨_, w, w', hw, rfl, ?_⟩)
        cases hp : w.pc <;> simp [Worker.recvStep, hp] at hw'
        rw [← hw']
      · cases hs
    · cases hs
  · cases c <;> simp only [handDoneStep] at hs <;> try cases hs
    split at hs
    · rename_i w hw
      split at hs
      · rename_i w' hw'
        cases hs
        refine Or.inr (Or.inl ⟨_, w, w', hw, rfl, ?_⟩)
        cases hp : w.pc <;> simp [Worker.sendStep, Worker.offer, hp] at hw' <;> rw [← hw']
      · cases hs
    · cases hs
  · simp only [workerStep] at hs
    split at hs
    · split at hs
      · rename_i w hw
        split at hs
        · rename_i w' hw'
          cases hs
          refine Or.inr (Or.inl ⟨_, w, w', hw, rfl, ?_⟩)
          cases hp : w.pc <;> simp [Worker.localStep, hp] at hw'
          · rw [← hw']
          · split at hw' <;> simp at hw' <;> rw [← hw']
          · rw [← hw']
          · rw [← hw']
          · rw [← hw']
        · cases hs
      · cases hs
    · cases hs
  · split at hs <;> cases hs
    exact Or.inl rfl
  · split at hs <;> cases hs
    exact Or.inl rfl

/-- After the shutdown arm, one step launches no worker and renames none. -/
theorem shutdown_step {env : Env} {a : Action} {s s' : State}
    (hd : s.ctrl.shutdown = true) (hs : step env a s = some s') :
    s'.ctrl.shutdown = true ∧ s'.workers.length = s.workers.length ∧
    (∀ (i : Nat) (w' : Worker), s'.workers[i]? = some w' →
      ∃ w, s.workers[i]? = some w ∧ w'.audioName = w.audioName) := by
  refine ⟨?_, ?_⟩
  · rcases step_ctrl hs with e | ⟨_, hm⟩ | ⟨ch, d, _, dl, e⟩ | ⟨ch, d, e', e⟩ | ⟨ch, d, e', e⟩
    · rw [e]
      exact hd
    · obtain ⟨c, ws, now, cd, k⟩ := s
      cases c <;> simp [Ctrl.shutdown] at hd <;> simp only [mainStep] at hm <;> try cases hm
      · subst hd
        simp at hm
        subst hm
        rfl
      · split at hm <;> cases hm
        rfl
    · rw [e] at hd
      cases hd
    · rw [e] at hd
      rw [e']
      exact hd
    · rw [e] at hd
      rw [e']
      exact hd
  · rcases step_workers hs with e | ⟨i, w, w', hw, e, hn⟩ | ⟨e, _⟩
    · rw [e]
      exact ⟨rfl, fun i w' h => ⟨w', h, rfl⟩⟩
    · rw [e]
      refine ⟨List.length_set _ _ _, ?_⟩
      intro j v hv
      rcases getElem?_set_some hv with ⟨rfl, rfl, _⟩ | ⟨_, hv0⟩
      · exact ⟨w, hw, hn⟩
      · exact ⟨v, hv0, rfl⟩
    · rw [e] at hd
      cases hd

theorem shutdown_run {env : Env} {acts : List Action} {s s' : State}
    (hd : s.ctrl.shutdown = true) (hs : run env acts s = some s') :
    s'.ctrl.shutdown = true ∧ s'.workers.length = s.workers.length ∧
    (∀ (i : Nat) (w' : Worker), s'.workers[i]? = some w' →
      ∃ w, s.workers[i]? = some w ∧ w'.audioName = w.audioName) := by
  induction acts generalizing s with
  | nil =>
      simp only [run, Option.some.injEq] at hs
      subst hs
      exact ⟨hd, rfl, fun i w' h => ⟨w', h, rfl⟩⟩
  | cons a rest ih =>
      simp only [run] at hs
      split at hs
      · rename_i s1 h1
        obtain ⟨a1, a2, a3⟩ := shutdown_step hd h1
        obtain ⟨b1, b2, b3⟩ := ih a1 hs
        refine ⟨b1, b2.trans a2, ?_⟩
        intro i w' hw'
        obtain ⟨v, hv, ev⟩ := b3 i w' hw'
        obtain ⟨w, hw, ew⟩ := a3 i v hv
        exact ⟨w, hw, ev.trans ew⟩
      · cases hs

theorem Reachable.trans_run {env : Env} {t0 : Nat} {acts : List Action} {s s' : State}
    (hr : Reachable env t0 s) (hs : run env acts s = some s') : Reachable env t0 s' := by
  obtain ⟨pre, hpre⟩ := hr
  refine ⟨pre ++ acts, ?_⟩
  generalize init t0 = s0 at hpre
  induction pre generalizing s0 with
  | nil =>
      simp only [run, Option.some.injEq] at hpre
      subst hpre
      exact hs
  | cons a rest ih =>
      simp only [run, List.cons_append] at hpre ⊢
      split at hpre
      · rename_i s1 h1
        exact ih s1 hpre
      · cases hpre

/-- C5, as stated, fails: the signal has fired (`ctx.Done()` is closed) with one worker
launched and one file created, and the continuation launches a second worker, which
creates a second file. -/
theorem signal_then_new_segment :
    run envOk lateSignalSchedule (init 0) = some (stateAfter envOk lateSignalSchedule) ∧
    (stateAfter envOk lateSignalSchedule).ctxDone = true ∧
    (stateAfter envOk lateSignalSchedule).workers.length = 1 ∧
    (createdFiles (stateAfter envOk lateSignalSchedule).workers).length = 1 ∧
    run envOk lateSignalRest (stateAfter envOk lateSignalSchedule)
      = some (stateAfter envOk (lateSignalSchedule ++ lateSignalRest)) ∧
    (stateAfter envOk (lateSignalSchedule ++ lateSignalRest)).workers.length = 2 ∧
    (createdFiles (stateAfter envOk (lateSignalSchedule ++ lateSignalRest)).workers).length
      = 2 :=
  ⟨rfl, rfl, rfl, rfl, rfl, rfl, rfl⟩

theorem wav_name_inj {a b : String} (h : a ++ ".wav" = b ++ ".wav") : a = b := by
  have h' := congrArg String.data h
  simp only [String.data_append] at h'
  exact String.ext (List.append_cancel_right h')

/-- C7: when `N` iterations have run to their end without `break` and the controller is
back at the top of the loop, the files created are exactly those of the `N` workers, one
each, in launch order; each is named `<audioName>.wav` with sample rate 44100 and one
channel, where `audioName` is the RFC3339 text of the clock (in whole seconds) at the
start of its iteration; and, the RFC3339 text being different for different seconds,
the `N` names are pairwise distinct. -/
theorem files_after_iterations (env : Env) (t0 : Nat) (s : State) (N : Nat)
    (hinj : Function.Injective env.rfc3339) (hr : Reachable env t0 s)
    (hc : s.ctrl = .loopTop) (hN : s.iterations = N) :
    createdFiles s.workers = s.workers.map
      (fun w => { name := w.audioName ++ ".wav", sampleRate := 44100, channels := 1 }) ∧
    (createdFiles s.workers).length = N ∧
    (∀ (i : Nat) (w : Worker), s.workers[i]? = some w →
      w.audioName = env.rfc3339 (w.launchedAt / second) ∧ w.launchedAt ≤ s.now) ∧
    ((createdFiles s.workers).map WavFile.name).Nodup := by
  have hinv := Invariant.reachable_inv hr
  have hsh := hinv.shaped
  simp only [hc, shape] at hsh
  have hret : ∀ w ∈ s.workers, w.created = [w.wav] := by
    intro w hw
    obtain ⟨i, hi⟩ := List.mem_iff_getElem?.mp hw
    obtain ⟨h1, h2, _⟩ := hinv.wk i w hi
    simp only [hc, coupled, Ctrl.current] at h2
    exact h1.created_returned h2
  have hmap := createdFiles_eq_map hret
  refine ⟨hmap, ?_, ?_, ?_⟩
  · rw [hmap, List.length_map, ← hsh, hN]
  · intro i w hw
    obtain ⟨h1, _, h3, _⟩ := hinv.wk i w hw
    exact ⟨h1.name_eq, h3⟩
  · rw [hmap, List.map_map]
    rw [List.Nodup, List.pairwise_map, List.pairwise_iff_getElem]
    intro i j hi hj hij heq
    have hwi : s.workers[i]? = some s.workers[i] := List.getElem?_eq_getElem hi
    have hwj : s.workers[j]? = some s.workers[j] := List.getElem?_eq_getElem hj
    have hgap := hinv.gap i j _ _ hij hwi hwj
    have hni := (hinv.wk i _ hwi).1.name_eq
    have hnj := (hinv.wk j _ hwj).1.name_eq
    have hname : s.workers[i].audioName = s.workers[j].audioName := wav_name_inj heq
    rw [hni, hnj] at hname
    have := hinj hname
    simp only [interval, second] at hgap this
    omega

/-- C7 on a run: two full segments, the controller back at the top of the loop; two
files with different names. -/
theorem files_after_iterations_witness :
    (stateAfter envOk twoFullSchedule).ctrl = .loopTop ∧
    (stateAfter envOk twoFullSchedule).iterations = 2 ∧
    createdFiles (stateAfter envOk twoFullSchedule).workers
      = [{ name := ".wav", sampleRate := 44100, channels := 1 },
         { name := "ttttttt.wav", sampleRate := 44100, channels := 1 }] ∧
    (createdFiles (stateAfter envOk twoFullSchedule).workers).length = 2 ∧
    ((createdFiles (stateAfter envOk twoFullSchedule).workers).map WavFile.name).Nodup :=
  ⟨rfl, rfl, by decide,
   (files_after_iterations envOk 0 (stateAfter envOk twoFullSchedule) 2
      (fun a b h => by
        have h' := congrArg String.length h
        simpa [envOk, stamp, String.length] using h')
      ⟨twoFullSchedule, rfl⟩ rfl rfl).2.1,
   (files_after_iterations envOk 0 (stateAfter envOk twoFullSchedule) 2
      (fun a b h => by
        have h' := congrArg String.length h
        simpa [envOk, stamp, String.length] using h')
      ⟨twoFullSchedule, rfl⟩ rfl rfl).2.2.2⟩

theorem runTimed_run {env : Env} {T : Nat} {acts : List Action} {s s' : State}
    (h : runTimed env T acts s = some s') : run env acts s = some s' := by
  induction acts generalizing s with
  | nil => exact h
  | cons a rest ih =>
      simp only [runTimed] at h
      split at h
      · split at h
        · rename_i s1 h1
          simp only [run, h1]
          exact ih h
        · cases h
      · cases h

/-- Replacing worker `k` and moving the controller, in the timed reading. -/
theorem TimedInv.set_timed {t0 T : Nat} {s : State} {k : Nat} {w' : Worker} {c : Ctrl}
    (h : TimedInv t0 T s)
    (hclock : clockOk t0 T c s.workers.length s.now s.ctxDone)
    (hw' : TimedWorker t0 s.workers.length s.now k w') :
    TimedInv t0 T { s with ctrl := c, workers := s.workers.set k w' } := by
  refine ⟨?_, ?_⟩
  · simpa using hclock
  · intro i v hv
    simp only [List.length_set]
    rcases getElem?_set_some hv with ⟨rfl, rfl, _⟩ | ⟨_, hv0⟩
    · exact hw'
    · exact h.tw i v hv0

/-- Moving only the controller and the signal flag, in the timed reading. -/
theorem TimedInv.moveCtrl_timed {t0 T : Nat} {s : State} {c' : Ctrl} {cd' : Bool} {k' : Nat}
    (h : TimedInv t0 T s)
    (hclock : clockOk t0 T c' s.workers.length s.now cd') :
    TimedInv t0 T { s with ctrl := c', ctxDone := cd', iterations := k' } :=
  ⟨hclock, h.tw⟩

/-- A worker that has not returned is the latest one. -/
theorem last_of_not_returned {env : Env} {s : State} {i : Nat} {w : Worker}
    (hinv : Invariant env s) (hw : s.workers[i]? = some w) (hne : w.pc ≠ .returned) :
    i + 1 = s.workers.length := by
  have h2 := (hinv.wk i w hw).2.1
  have hsh := hinv.shaped
  simp only [coupled] at h2
  split at h2
  · rename_i ch handed hcur
    split at h2
    · rename_i hi
      subst hi
      cases hc : s.ctrl <;> simp [hc, Ctrl.current] at hcur <;> simp only [hc, shape] at hsh <;>
        omega
    · exact absurd h2 hne
  · exact absurd h2 hne

theorem TimedWorker.localStep_tw {env : Env} {t0 n now i : Nat} {w w' : Worker}
    (h : TimedWorker t0 n now i w) (hlast : i + 1 = n)
    (hs : w.localStep (env.newRecordOk i) now = some w') : TimedWorker t0 n now i w' := by
  obtain ⟨pc, name, chan, tr, la, sa, so⟩ := w
  obtain ⟨h1, h2, h3, h4, h5⟩ := h
  simp only at h1 h2 h3 h4 h5
  cases pc <;> simp only [Worker.localStep] at hs <;> try cases hs
  · exact ⟨h1, h2, by simp [WPc.pastStart], fun hc => by omega, by simp [WPc.pastStop]⟩
  · split at hs <;> cases hs
    · exact ⟨h1, h2, by simp [WPc.pastStart], fun hc => by omega, by simp [WPc.pastStop]⟩
    · exact ⟨h1, h2, by simp [WPc.pastStart], fun hc => by omega, by simp [WPc.pastStop]⟩
  · exact ⟨h1, by simp [WPc.beforeRecv], fun _ => h2 rfl, fun hc => by omega,
      by simp [WPc.pastStop]⟩
  · exact ⟨h1, by simp [WPc.beforeRecv], fun _ => h3 rfl, fun hc => by omega, fun _ _ => rfl⟩
  · exact ⟨h1, by simp [WPc.beforeRecv], fun _ => h3 rfl, fun hc => by omega,
      fun hl _ => h5 hl rfl⟩

theorem TimedWorker.recvStep_tw {t0 n now i : Nat} {w w' : Worker}
    (h : TimedWorker t0 n now i w) (hlast : i + 1 = n)
    (hs : w.recvStep RECORD_AUDIO_STOP = some w') : TimedWorker t0 n now i w' := by
  obtain ⟨pc, name, chan, tr, la, sa, so⟩ := w
  obtain ⟨h1, h2, h3, h4, h5⟩ := h
  simp only at h1 h2 h3 h4 h5
  cases pc <;> simp only [Worker.recvStep] at hs <;> try cases hs
  exact ⟨h1, by simp [WPc.beforeRecv], fun _ => h3 rfl, fun hc => by omega,
    by simp [WPc.pastStop]⟩

theorem TimedWorker.sendStep_tw {t0 n now i : Nat} {w w' : Worker}
    (h : TimedWorker t0 n now i w) (hlast : i + 1 = n) (hlate : w.pc.late = true)
    (hs : w.sendStep = some w') : TimedWorker t0 n now i w' := by
  obtain ⟨pc, name, chan, tr, la, sa, so⟩ := w
  obtain ⟨h1, h2, h3, h4, h5⟩ := h
  simp only at h1 h2 h3 h4 h5
  cases pc <;> simp only [Worker.sendStep, Worker.offer] at hs <;> try cases hs
  · simp [WPc.late] at hlate
  · exact ⟨h1, by simp [WPc.beforeRecv], fun _ => h3 rfl, fun hc => by omega,
      fun hl _ => h5 hl rfl⟩

theorem TimedInv.main_timed {env : Env} {t0 T : Nat} {s s' : State}
    (hT : ∀ k, t0 + k * interval ≠ T) (hle : t0 ≤ T)
    (hlog : env.openLogOk = true) (hcl : env.newClientOk = true)
    (hinv : Invariant env s) (h : TimedInv t0 T s)
    (hs : mainStep env s = some s') : TimedInv t0 T s' := by
  obtain ⟨c, ws, now, cd, k⟩ := s
  have hclock := h.clock
  have hsh := hinv.shaped
  cases c <;> simp only [mainStep, setupLogger, hlog, hcl] at hs <;> try cases hs
  · -- setupLogger
    exact TimedInv.moveCtrl_timed (s := ⟨.setupLogger, ws, now, cd, k⟩) h hclock
  · -- newClient
    exact TimedInv.moveCtrl_timed (s := ⟨.newClient, ws, now, cd, k⟩) h hclock
  · -- notifyContext
    simp only [clockOk] at hclock
    simp only [shape] at hsh
    refine TimedInv.moveCtrl_timed (s := ⟨.notifyContext, ws, now, cd, k⟩) h ?_
    have := hT 0
    simp only [clockOk]
    refine ⟨by simp only [hsh.1]; omega, by omega, hclock.2⟩
  · -- loopTop
    simp only [clockOk] at hclock
    refine ⟨?_, ?_⟩
    · simp only [clockOk]
      exact hclock
    · intro i v hv
      simp only [List.length_append, List.length_singleton]
      rcases getElem?_snoc_some hv with ⟨hlt, hv0⟩ | ⟨rfl, rfl⟩
      · have htw := h.tw i v hv0
        have hret : v.pc = .returned := by
          have := (hinv.wk i v hv0).2.1
          simpa only [coupled, Ctrl.current] using this
        change i < ws.length at hlt
        refine ⟨htw.launched, by simp [hret, WPc.beforeRecv], htw.started, ?_, fun hc => by omega⟩
        intro _
        by_cases hl : i + 1 < ws.length
        · exact htw.stoppedOld hl
        · have hl' : i + 1 = ws.length := by omega
          have h5 := htw.stoppedLast hl' (by simp [hret, WPc.pastStop])
          have h1 := htw.launched
          simp only at h5
          rw [h5, h1, hclock.1, ← hl']
          simp only [interval, second]
          omega
      · refine ⟨?_, fun _ => rfl, by simp [Worker.fresh, WPc.pastStart], fun hc => by omega,
          by simp [Worker.fresh, WPc.pastStop]⟩
        simp only [Worker.fresh]
        exact hclock.1
  · -- enterSelect
    rename_i ch
    simp only [clockOk] at hclock
    refine TimedInv.moveCtrl_timed (s := ⟨.enterSelect ch, ws, now, cd, k⟩) h ?_
    simp only [clockOk]
    obtain ⟨h1, h2, h3⟩ := hclock
    refine ⟨?_, by omega, by omega, by omega, fun hc => by rw [h3] at hc; cases hc⟩
    rw [h1]
    simp only [interval, second]
    omega
  · -- checkDying
    rename_i ch dying
    simp only [clockOk] at hclock
    simp only [shape] at hsh
    split at hs <;> cases hs
    · rename_i hd
      subst hd
      simp only [if_true] at hclock
      refine TimedInv.moveCtrl_timed (s := ⟨.checkDying ch true, ws, now, cd, k⟩) h ?_
      exact ⟨hclock.1, ch, hsh.1, hclock.2.1, hclock.2.2⟩
    · rename_i hd
      have hd' : dying = false := by simpa using hd
      subst hd'
      simp only [Bool.false_eq_true, if_false] at hclock
      refine TimedInv.moveCtrl_timed (s := ⟨.checkDying ch false, ws, now, cd, k⟩) h ?_
      simp only [clockOk]
      refine ⟨?_, hclock.2.1, hclock.2.2⟩
      rw [hclock.1, ← hsh.1]
  · -- wgWait
    split at hs <;> cases hs
    exact TimedInv.moveCtrl_timed (s := ⟨.wgWait, ws, now, cd, k⟩) h hclock

theorem TimedInv.selectCtx_timed {t0 T : Nat} {s s' : State}
    (hT : ∀ k, t0 + k * interval ≠ T) (h : TimedInv t0 T s)
    (hs : selectCtxStep s = some s') : TimedInv t0 T s' := by
  obtain ⟨c, ws, now, cd, k⟩ := s
  have hclock := h.clock
  cases c <;> simp only [selectCtxStep] at hs <;> try cases hs
  rename_i ch dl
  split at hs <;> cases hs
  rename_i hcd
  simp only [clockOk] at hclock
  obtain ⟨h1, h2, h3, h4, h5⟩ := hclock
  have hnow := h5 hcd
  refine TimedInv.moveCtrl_timed (s := ⟨.select ch dl, ws, now, cd, k⟩) h ?_
  simp only [clockOk, if_true]
  have e1 := hT ch
  have e2 := hT (ch + 1)
  simp only at hnow
  refine ⟨hnow, by omega, by omega⟩

theorem TimedInv.selectTimer_timed {t0 T : Nat} {s s' : State}
    (hT : ∀ k, t0 + k * interval ≠ T) (h : TimedInv t0 T s)
    (hs : selectTimerStep s = some s') : TimedInv t0 T s' := by
  obtain ⟨c, ws, now, cd, k⟩ := s
  have hclock := h.clock
  cases c <;> simp only [selectTimerStep] at hs <;> try cases hs
  rename_i ch dl
  split at hs <;> cases hs
  rename_i hdl
  simp only [clockOk] at hclock
  obtain ⟨h1, h2, h3, h4, h5⟩ := hclock
  refine TimedInv.moveCtrl_timed (s := ⟨.select ch dl, ws, now, cd, k⟩) h ?_
  simp only [clockOk, Bool.false_eq_true, if_false]
  have e2 := hT (ch + 1)
  have hnow : now = t0 + (ch + 1) * interval := by omega
  refine ⟨hnow, by omega, ?_⟩
  cases hcd : cd
  · rfl
  · have := h5 hcd
    omega

theorem TimedInv.handStop_timed {env : Env} {t0 T : Nat} {s s' : State}
    (hinv : Invariant env s) (h : TimedInv t0 T s)
    (hs : handStopStep s = some s') : TimedInv t0 T s' := by
  obtain ⟨c, ws, now, cd, k⟩ := s
  have hclock := h.clock
  have hsh := hinv.shaped
  cases c <;> simp only [handStopStep] at hs <;> try cases hs
  rename_i ch dying
  split at hs
  · rename_i w hw
    split at hs
    · rename_i w' hw'
      cases hs
      simp only [shape] at hsh
      refine TimedInv.set_timed (s := ⟨.sendStop ch dying, ws, now, cd, k⟩) h ?_ ?_
      · simpa only [clockOk] using hclock
      · exact (h.tw ch w hw).recvStep_tw hsh.1 hw'
    · cases hs
  · cases hs

theorem TimedInv.handDone_timed {env : Env} {t0 T : Nat} {s s' : State}
    (hinv : Invariant env s) (h : TimedInv t0 T s)
    (hs : handDoneStep s = some s') : TimedInv t0 T s' := by
  obtain ⟨c, ws, now, cd, k⟩ := s
  have hclock := h.clock
  have hsh := hinv.shaped
  cases c <;> simp only [handDoneStep] at hs <;> try cases hs
  rename_i ch dying
  split at hs
  · rename_i w hw
    split at hs
    · rename_i w' hw'
      cases hs
      simp only [shape] at hsh
      have hlate : w.pc.late = true := by
        have := (hinv.wk ch w hw).2.1
        simpa [coupled, Ctrl.current] using this
      refine TimedInv.set_timed (s := ⟨.recvDone ch dying, ws, now, cd, k⟩) h ?_ ?_
      · simpa only [clockOk] using hclock
      · exact (h.tw ch w hw).sendStep_tw hsh.1 hlate hw'
    · cases hs
  · cases hs

theorem TimedInv.worker_timed {env : Env} {t0 T : Nat} {s s' : State} {i : Nat}
    (hinv : Invariant env s) (h : TimedInv t0 T s)
    (hs : workerStep env i s = some s') : TimedInv t0 T s' := by
  simp only [workerStep] at hs
  split at hs
  · split at hs
    · rename_i w hw
      split at hs
      · rename_i w' hw'
        cases hs
        have hne : w.pc ≠ .returned := by
          intro hp
          simp [Worker.localStep, hp] at hw'
        have hlast := last_of_not_returned hinv hw hne
        exact TimedInv.set_timed (c := s.ctrl) h h.clock ((h.tw i w hw).localStep_tw hlast hw')
      · cases hs
    · cases hs
  · cases hs

theorem TimedInv.tick_timed {env : Env} {t0 T : Nat} {s : State} {d : Nat}
    (hinv : Invariant env s) (h : TimedInv t0 T s)
    (hok : timedOk T (.tick d) s = true) :
    TimedInv t0 T { s with now := s.now + d } := by
  obtain ⟨c, ws, now, cd, k⟩ := s
  have hclock := h.clock
  have hsh := hinv.shaped
  cases c <;> simp only [timedOk] at hok <;> try cases hok
  rename_i ch dl
  simp only [Bool.and_eq_true, Bool.not_eq_true', decide_eq_true_eq] at hok
  obtain ⟨⟨⟨hcd, hdl⟩, hT⟩, hrecv⟩ := hok
  simp only [clockOk] at hclock
  simp only [shape] at hsh
  obtain ⟨h1, h2, h3, h4, h5⟩ := hclock
  refine ⟨?_, ?_⟩
  · simp only [clockOk]
    refine ⟨h1, by omega, hdl, hT, ?_⟩
    intro hc
    rw [hcd] at hc
    cases hc
  · intro i v hv
    have htw := h.tw i v hv
    have hpc : v.pc = .recvStop ∨ v.pc = .returned := by
      by_cases hi : i = ch
      · subst hi
        simp only at hv
        rw [hv] at hrecv
        simp only [decide_eq_true_eq] at hrecv
        exact Or.inl hrecv
      · have := (hinv.wk i v hv).2.1
        simp only [coupled, Ctrl.current, hi, if_false] at this
        exact Or.inr this
    refine ⟨htw.launched, ?_, htw.started, htw.stoppedOld, ?_⟩
    · intro hb
      rcases hpc with e | e <;> simp [e, WPc.beforeRecv] at hb
    · intro hl hp
      rcases hpc with e | e
      · simp [e, WPc.pastStop] at hp
      · exfalso
        have hi : i ≠ ch := by
          intro hi
          subst hi
          simp only at hv
          rw [hv] at hrecv
          simp only [decide_eq_true_eq] at hrecv
          rw [hrecv] at e
          cases e
        simp only at hl
        omega

theorem TimedInv.signal_timed {t0 T : Nat} {s : State}
    (h : TimedInv t0 T s) (hok : timedOk T .signal s = true)
    (harmed : s.ctrl.armed = true) :
    TimedInv t0 T { s with ctxDone := true } := by
  obtain ⟨c, ws, now, cd, k⟩ := s
  have hclock := h.clock
  simp only [timedOk, Bool.and_eq_true, decide_eq_true_eq, Bool.not_eq_true'] at hok
  obtain ⟨hnow, hcd⟩ := hok
  refine ⟨?_, h.tw⟩
  cases c
  case setupLogger => cases harmed
  case exited => cases harmed
  case newClient => cases harmed
  case notifyContext => cases harmed
  case returned => cases harmed
  case loopTop =>
    simp only [clockOk] at hclock
    exfalso
    omega
  case enterSelect ch =>
    simp only [clockOk] at hclock
    exfalso
    omega
  case select ch dl =>
    simp only [clockOk] at hclock ⊢
    obtain ⟨h1, h2, h3, h4, h5⟩ := hclock
    exact ⟨h1, h2, h3, h4, fun _ => hnow⟩
  case sendStop ch dying =>
    cases dying
    · simp only [clockOk, Bool.false_eq_true, if_false] at hclock
      exfalso
      omega
    · exact hclock
  case recvDone ch dying =>
    cases dying
    · simp only [clockOk, Bool.false_eq_true, if_false] at hclock
      exfalso
      omega
    · exact hclock
  case checkDying ch dying =>
    cases dying
    · simp only [clockOk, Bool.false_eq_true, if_false] at hclock
      exfalso
      omega
    · exact hclock
  case wgWait => exact hclock

/-- One step allowed by the timed reading keeps the timed invariant. -/
theorem TimedInv.step_timed {env : Env} {t0 T : Nat} {a : Action} {s s' : State}
    (hT : ∀ k, t0 + k * interval ≠ T) (hle : t0 ≤ T)
    (hlog : env.openLogOk = true) (hcl : env.newClientOk = true)
    (hinv : Invariant env s) (h : TimedInv t0 T s)
    (hok : timedOk T a s = true) (hs : step env a s = some s') : TimedInv t0 T s' := by
  cases a <;> simp only [RspiMicRecorder.step] at hs
  · exact h.main_timed hT hle hlog hcl hinv hs
  · exact h.selectCtx_timed hT hs
  · exact h.selectTimer_timed hT hs
  · exact h.handStop_timed hinv hs
  · exact h.handDone_timed hinv hs
  · exact h.worker_timed hinv hs
  · split at hs <;> cases hs
    exact h.tick_timed hinv hok
  · split at hs
    · rename_i harmed
      cases hs
      exact h.signal_timed hok harmed
    · cases hs

/-- Every run allowed by the timed reading keeps both invariants. -/
theorem TimedInv.run_timed {env : Env} {t0 T : Nat} {acts : List Action} {s s' : State}
    (hT : ∀ k, t0 + k * interval ≠ T) (hle : t0 ≤ T)
    (hlog : env.openLogOk = true) (hcl : env.newClientOk = true)
    (hinv : Invariant env s) (h : TimedInv t0 T s)
    (hs : runTimed env T acts s = some s') : TimedInv t0 T s' := by
  induction acts generalizing s with
  | nil =>
      simp only [runTimed, Option.some.injEq] at hs
      exact hs ▸ h
  | cons a rest ih =>
      simp only [runTimed] at hs
      split at hs
      · rename_i hok
        split at hs
        · rename_i s1 h1
          exact ih (hinv.step_inv h1) (h.step_timed hT hle hlog hcl hinv hok h1) hs
        · cases hs
      · cases hs

theorem TimedInv.init_timed (t0 T : Nat) : TimedInv t0 T (init t0) := by
  refine ⟨⟨rfl, rfl⟩, ?_⟩
  intro i w hw
  simp [RspiMicRecorder.init] at hw

theorem set_snoc {α : Type} (ws : List α) (w w' : α) :
    (ws ++ [w]).set ws.length w' = ws ++ [w'] := by
  induction ws with
  | nil => rfl
  | cons a ws ih => simp [List.set, ih]

theorem runTimed_append {env : Env} {T : Nat} (a b : List Action) (s : State) :
    runTimed env T (a ++ b) s =
      match runTimed env T a s with
      | some s' => runTimed env T b s'
      | none => none := by
  induction a generalizing s with
  | nil => rfl
  | cons x rest ih =>
      simp only [List.cons_append, runTimed]
      split
      · split
        · exact ih _
        · rfl
      · rfl

theorem runTimed_cons_ok {env : Env} {T : Nat} {a : Action} {rest : List Action}
    {s u : State} (hok : timedOk T a s = true) (hs : step env a s = some u) :
    runTimed env T (a :: rest) s = runTimed env T rest u := by
  simp only [runTimed, hok, hs, if_true]

theorem workerStep_last {env : Env} {c : Ctrl} {ws : List Worker} {w w' : Worker}
    {now k : Nat} {cd : Bool} (hc : c.alive = true)
    (hw : w.localStep (env.newRecordOk ws.length) now = some w') :
    step env (.worker ws.length) ⟨c, ws ++ [w], now, cd, k⟩
      = some ⟨c, ws ++ [w'], now, cd, k⟩ := by
  simp only [step, workerStep, hc, if_true, List.getElem?_concat_length, hw, set_snoc]

theorem handStop_last {env : Env} {ws : List Worker} {w w' : Worker}
    {now k : Nat} {cd d : Bool} (hw : w.recvStep RECORD_AUDIO_STOP = some w') :
    step env .handStop ⟨.sendStop ws.length d, ws ++ [w], now, cd, k⟩
      = some ⟨.recvDone ws.length d, ws ++ [w'], now, cd, k⟩ := by
  simp only [step, handStopStep, List.getElem?_concat_length, hw, set_snoc]

theorem handDone_last {env : Env} {ws : List Worker} {w w' : Worker}
    {now k : Nat} {cd d : Bool} (hw : w.sendStep = some w') :
    step env .handDone ⟨.recvDone ws.length d, ws ++ [w], now, cd, k⟩
      = some ⟨.checkDying ws.length d, ws ++ [w'], now, cd, k⟩ := by
  simp only [step, handDoneStep, List.getElem?_concat_length, hw, set_snoc]

theorem timedOk_tick_last {T : Nat} {ws : List Worker} {w : Worker} {now k d dl : Nat}
    (hpc : w.pc = .recvStop) (h1 : now + d ≤ dl) (h2 : now + d ≤ T) :
    timedOk T (.tick d) ⟨.select ws.length dl, ws ++ [w], now, false, k⟩ = true := by
  simp only [timedOk, List.getElem?_concat_length, hpc, h1, h2, decide_True, Bool.not_false,
    Bool.and_self]

/-- The statements of a segment up to the blocked select, in the timed reading. -/
theorem segment_start_run {env : Env} {T : Nat} (hrec : ∀ i, env.newRecordOk i = true)
    (ws : List Worker) (now k : Nat) (rest : List Action) :
    runTimed env T
      (.main :: .worker ws.length :: .worker ws.length :: .worker ws.length :: .main :: rest)
      ⟨.loopTop, ws, now, false, k⟩ =
    runTimed env T rest
      ⟨.select ws.length (now + interval),
        ws ++ [Worker.onPath (env.rfc3339 (now / second)) now now 0 .recvStop],
        now, false, k⟩ := by
  refine (runTimed_cons_ok (u := ⟨.enterSelect ws.length,
    ws ++ [Worker.onPath (env.rfc3339 (now / second)) now 0 0 .createFile], now, false, k⟩)
    ?_ ?_).trans ?_
  · rfl
  · rfl
  refine (runTimed_cons_ok (u := ⟨.enterSelect ws.length,
    ws ++ [Worker.onPath (env.rfc3339 (now / second)) now 0 0 .newRecord], now, false, k⟩)
    ?_ ?_).trans ?_
  · rfl
  · exact workerStep_last rfl rfl
  refine (runTimed_cons_ok (u := ⟨.enterSelect ws.length,
    ws ++ [Worker.onPath (env.rfc3339 (now / second)) now 0 0 .streamStart], now, false, k⟩)
    ?_ ?_).trans ?_
  · rfl
  · refine workerStep_last rfl ?_
    rw [hrec]
    rfl
  refine (runTimed_cons_ok (u := ⟨.enterSelect ws.length,
    ws ++ [Worker.onPath (env.rfc3339 (now / second)) now now 0 .recvStop], now, false, k⟩)
    ?_ ?_).trans ?_
  · rfl
  · exact workerStep_last rfl rfl
  refine (runTimed_cons_ok (u := ⟨.select ws.length (now + interval),
    ws ++ [Worker.onPath (env.rfc3339 (now / second)) now now 0 .recvStop], now, false, k⟩)
    ?_ ?_).trans ?_
  · rfl
  · rfl
  rfl

/-- The statements of a segment from the stop instruction to the test of `dying`. -/
theorem segment_stop_run {env : Env} {T : Nat}
    (ws : List Worker) (name : String) (start now k : Nat) (cd d : Bool)
    (rest : List Action) :
    runTimed env T
      (.handStop :: .worker ws.length :: .worker ws.length :: .handDone :: rest)
      ⟨.sendStop ws.length d, ws ++ [Worker.onPath name start start 0 .recvStop],
        now, cd, k⟩ =
    runTimed env T rest
      ⟨.checkDying ws.length d, ws ++ [Worker.onPath name start start now .returned],
        now, cd, k⟩ := by
  refine (runTimed_cons_ok (u := ⟨.recvDone ws.length d,
    ws ++ [Worker.onPath name start start 0 .streamStop], now, cd, k⟩) ?_ ?_).trans ?_
  · rfl
  · exact handStop_last rfl
  refine (runTimed_cons_ok (u := ⟨.recvDone ws.length d,
    ws ++ [Worker.onPath name start start now .fileClose], now, cd, k⟩) ?_ ?_).trans ?_
  · rfl
  · exact workerStep_last rfl rfl
  refine (runTimed_cons_ok (u := ⟨.recvDone ws.length d,
    ws ++ [Worker.onPath name start start now .sendDone], now, cd, k⟩) ?_ ?_).trans ?_
  · rfl
  · exact workerStep_last rfl rfl
  refine (runTimed_cons_ok (u := ⟨.checkDying ws.length d,
    ws ++ [Worker.onPath name start start now .returned], now, cd, k⟩) ?_ ?_).trans ?_
  · rfl
  · exact handDone_last rfl
  rfl

theorem fullSegment_run {env : Env} {T : Nat} (hrec : ∀ i, env.newRecordOk i = true)
    (ws : List Worker) (now k : Nat) (hT : now + interval ≤ T) :
    runTimed env T (fullSegment ws.length) ⟨.loopTop, ws, now, false, k⟩ =
      some ⟨.loopTop,
        ws ++ [Worker.finished (env.rfc3339 (now / second)) now (now + interval)],
        now + interval, false, k + 1⟩ := by
  refine (segment_start_run hrec ws now k _).trans ?_
  refine (runTimed_cons_ok (u := ⟨.select ws.length (now + interval),
    ws ++ [Worker.onPath (env.rfc3339 (now / second)) now now 0 .recvStop],
    now + interval, false, k⟩) ?_ ?_).trans ?_
  · exact timedOk_tick_last rfl (Nat.le_refl _) hT
  · rfl
  refine (runTimed_cons_ok (u := ⟨.sendStop ws.length false,
    ws ++ [Worker.onPath (env.rfc3339 (now / second)) now now 0 .recvStop],
    now + interval, false, k⟩) ?_ ?_).trans ?_
  · rfl
  · simp only [step, selectTimerStep, Nat.le_refl, if_true]
  refine (segment_stop_run ws _ now (now + interval) k false false _).trans ?_
  refine (runTimed_cons_ok (u := ⟨.loopTop,
    ws ++ [Worker.onPath (env.rfc3339 (now / second)) now now (now + interval) .returned],
    now + interval, false, k + 1⟩) ?_ ?_).trans ?_
  · rfl
  · rfl
  rfl

theorem lastSegment_run {env : Env} {T : Nat} (hrec : ∀ i, env.newRecordOk i = true)
    (ws : List Worker) (now k r : Nat) (hall : ∀ w ∈ ws, w.pc = .returned)
    (hT : now + r = T) (hr : r ≤ interval) :
    runTimed env T (lastSegment ws.length r) ⟨.loopTop, ws, now, false, k⟩ =
      some ⟨.returned,
        ws ++ [Worker.finished (env.rfc3339 (now / second)) now (now + r)],
        now + r, true, k⟩ := by
  refine (segment_start_run hrec ws now k _).trans ?_
  refine (runTimed_cons_ok (u := ⟨.select ws.length (now + interval),
    ws ++ [Worker.onPath (env.rfc3339 (now / second)) now now 0 .recvStop],
    now + r, false, k⟩) ?_ ?_).trans ?_
  · exact timedOk_tick_last rfl (by omega) (by omega)
  · rfl
  refine (runTimed_cons_ok (u := ⟨.select ws.length (now + interval),
    ws ++ [Worker.onPath (env.rfc3339 (now / second)) now now 0 .recvStop],
    now + r, true, k⟩) ?_ ?_).trans ?_
  · simp only [timedOk, hT, decide_True, Bool.not_false, Bool.and_self]
  · rfl
  refine (runTimed_cons_ok (u := ⟨.sendStop ws.length true,
    ws ++ [Worker.onPath (env.rfc3339 (now / second)) now now 0 .recvStop],
    now + r, true, k⟩) ?_ ?_).trans ?_
  · rfl
  · rfl
  refine (segment_stop_run ws _ now (now + r) k true true _).trans ?_
  refine (runTimed_cons_ok (u := ⟨.wgWait,
    ws ++ [Worker.onPath (env.rfc3339 (now / second)) now now (now + r) .returned],
    now + r, true, k⟩) ?_ ?_).trans ?_
  · rfl
  · rfl
  have hallb : (ws ++ [Worker.onPath (env.rfc3339 (now / second)) now now (now + r)
      .returned]).all (fun w => decide (w.pc = .returned)) = true := by
    rw [List.all_eq_true]
    intro w hw
    rcases List.mem_append.mp hw with h | h
    · simp [hall w h]
    · simp only [List.mem_singleton] at h
      rw [h]
      rfl
  refine (runTimed_cons_ok (u := ⟨.returned,
    ws ++ [Worker.onPath (env.rfc3339 (now / second)) now now (now + r) .returned],
    now + r, true, k⟩) ?_ ?_).trans ?_
  · rfl
  · simp only [step, mainStep, hallb, if_true]
  rfl

theorem fullSegments_run {env : Env} {T : Nat} (hrec : ∀ i, env.newRecordOk i = true)
    (n : Nat) (ws : List Worker) (now k : Nat) (hall : ∀ w ∈ ws, w.pc = .returned)
    (hT : now + n * interval ≤ T) :
    ∃ ws', (∀ w ∈ ws', w.pc = .returned) ∧ ws'.length = ws.length + n ∧
      runTimed env T (fullSegments ws.length n) ⟨.loopTop, ws, now, false, k⟩ =
        some ⟨.loopTop, ws', now + n * interval, false, k + n⟩ := by
  induction n generalizing ws now k with
  | zero => exact ⟨ws, hall, rfl, by simp [fullSegments, runTimed]⟩
  | succ n ih =>
      have h1 : now + interval ≤ T := by
        have : now + interval ≤ now + (n + 1) * interval := by
          simp only [interval, second]
          omega
        omega
      have hall1 : ∀ w ∈ ws ++ [Worker.finished (env.rfc3339 (now / second)) now
          (now + interval)], w.pc = .returned := by
        intro w hw
        rcases List.mem_append.mp hw with h | h
        · exact hall w h
        · simp only [List.mem_singleton] at h
          rw [h]
          rfl
      have h2 : now + interval + n * interval ≤ T := by
        have : now + interval + n * interval = now + (n + 1) * interval := by
          simp only [interval, second]
          omega
        omega
      obtain ⟨ws', a1, a2, a3⟩ := ih _ (now + interval) (k + 1) hall1 h2
      refine ⟨ws', a1, ?_, ?_⟩
      · rw [a2]
        simp only [List.length_append, List.length_singleton]
        omega
      · simp only [fullSegments]
        rw [runTimed_append, fullSegment_run hrec ws now k h1]
        simp only [List.length_append, List.length_singleton] at a3
        simp only
        rw [a3]
        congr 2
        · simp only [interval, second]
          omega
        · omega

/-- The schedule of the timed reading runs to the return of `main`. -/
theorem timedSchedule_run {env : Env} (t0 t : Nat)
    (hlog : env.openLogOk = true) (hcl : env.newClientOk = true)
    (hrec : ∀ i, env.newRecordOk i = true) :
    ∃ s, runTimed env (t0 + t * second) (timedSchedule t) (init t0) = some s ∧
      s.ctrl = .returned := by
  have hstart : runTimed env (t0 + t * second) [.main, .main, .main] (init t0) =
      some ⟨.loopTop, [], t0, false, 0⟩ := by
    simp [runTimed, timedOk, step, mainStep, setupLogger, init, hlog, hcl]
  have hT : t0 + (t / 7) * interval ≤ t0 + t * second := by
    simp only [interval, second]
    omega
  obtain ⟨ws', a1, a2, a3⟩ := fullSegments_run (T := t0 + t * second) hrec (t / 7) [] t0 0
    (fun w hw => by cases hw) hT
  simp only [List.length_nil, Nat.zero_add] at a2 a3
  have hlast := lastSegment_run (T := t0 + t * second) hrec ws' (t0 + t / 7 * interval)
    (t / 7) (t % 7 * second) a1
    (by simp only [interval, second]; omega) (by simp only [interval, second]; omega)
  rw [a2] at hlast
  refine ⟨⟨.returned,
    ws' ++ [Worker.finished (env.rfc3339 ((t0 + t / 7 * interval) / second))
      (t0 + t / 7 * interval) (t0 + t / 7 * interval + t % 7 * second)],
    t0 + t / 7 * interval + t % 7 * second, true, t / 7⟩, ?_, rfl⟩
  simp only [timedSchedule]
  rw [runTimed_append, hstart]
  simp only
  rw [runTimed_append, a3]
  simp only
  exact hlast

theorem pending_le_one (c : Ctrl) : c.pending ≤ 1 := by
  cases c <;> simp only [Ctrl.pending] <;> try omega
  all_goals (rename_i d; cases d <;> simp only [Ctrl.pending] <;> omega)

/-- The closed `ctx.Done()` is never reopened. -/
theorem ctxDone_step {env : Env} {a : Action} {s s' : State}
    (hd : s.ctxDone = true) (hs : step env a s = some s') : s'.ctxDone = true := by
  obtain ⟨c, ws, now, cd, k⟩ := s
  simp only at hd
  cases a <;> simp only [RspiMicRecorder.step] at hs
  · cases c <;> simp only [mainStep] at hs <;> try cases hs
    · split at hs <;> cases hs <;> exact hd
    · split at hs <;> cases hs <;> exact hd
    · exact hd
    · exact hd
    · exact hd
    · split at hs <;> cases hs <;> exact hd
    · split at hs <;> cases hs
      exact hd
  · cases c <;> simp only [selectCtxStep] at hs <;> try cases hs
    split at hs <;> (cases hs; exact hd)
  · cases c <;> simp only [selectTimerStep] at hs <;> try cases hs
    split at hs <;> cases hs
    exact hd
  · cases c <;> simp only [handStopStep] at hs <;> try cases hs
    split at hs
    · split at hs <;> cases hs
      exact hd
    · cases hs
  · cases c <;> simp only [handDoneStep] at hs <;> try cases hs
    split at hs
    · split at hs <;> cases hs
      exact hd
    · cases hs
  · simp only [workerStep] at hs
    split at hs
    · split at hs
      · split at hs <;> cases hs
        exact hd
      · cases hs
    · cases hs
  · split at hs <;> cases hs
    exact hd
  · split at hs <;> cases hs
    rfl

/-- A step launches a worker only by using up a pending launch, and only the timer arm
makes a launch pending. -/
theorem pending_step {env : Env} {a : Action} {s s' : State}
    (hs : step env a s = some s') :
    s'.workers.length + s'.ctrl.pending ≤
      s.workers.length + s.ctrl.pending + [a].count .selectTimer := by
  obtain ⟨c, ws, now, cd, k⟩ := s
  cases a <;> simp only [RspiMicRecorder.step] at hs
  · cases c <;> simp only [mainStep] at hs <;> try cases hs
    · split at hs <;> cases hs <;> simp [Ctrl.pending]
    · split at hs <;> cases hs <;> simp [Ctrl.pending]
    · simp [Ctrl.pending]
    · simp [Ctrl.pending]
    · simp [Ctrl.pending]
    · rename_i ch dying
      split at hs <;> cases hs
      · simp [Ctrl.pending]
      · rename_i hd
        have hd' : dying = false := by simpa using hd
        subst hd'
        simp [Ctrl.pending]
    · split at hs <;> cases hs
      simp [Ctrl.pending]
  · cases c <;> simp only [selectCtxStep] at hs <;> try cases hs
    split at hs <;> cases hs
    simp [Ctrl.pending]
  · cases c <;> simp only [selectTimerStep] at hs <;> try cases hs
    split at hs <;> cases hs
    simp [Ctrl.pending]
  · cases c <;> simp only [handStopStep] at hs <;> try cases hs
    rename_i ch dying
    split at hs
    · split at hs <;> cases hs
      cases dying <;> simp [Ctrl.pending]
    · cases hs
  · cases c <;> simp only [handDoneStep] at hs <;> try cases hs
    rename_i ch dying
    split at hs
    · split at hs <;> cases hs
      cases dying <;> simp [Ctrl.pending]
    · cases hs
  · simp only [workerStep] at hs
    split at hs
    · split at hs
      · split at hs <;> cases hs
        simp
      · cases hs
    · cases hs
  · split at hs <;> cases hs
    simp
  · split at hs <;> cases hs
    simp

theorem pending_run {env : Env} {acts : List Action} {s s' : State}
    (hs : run env acts s = some s') :
    s'.workers.length + s'.ctrl.pending ≤
      s.workers.length + s.ctrl.pending + acts.count .selectTimer := by
  induction acts generalizing s with
  | nil =>
      simp only [run, Option.some.injEq] at hs
      subst hs
      simp
  | cons a rest ih =>
      simp only [run] at hs
      split at hs
      · rename_i s1 h1
        have e1 := pending_step h1
        have e2 := ih hs
        have e3 : (a :: rest).count Action.selectTimer
            = [a].count .selectTimer + rest.count .selectTimer := by
          rw [← List.count_append]
          rfl
        omega
      · cases hs

theorem ctxDone_run {env : Env} {acts : List Action} {s s' : State}
    (hd : s.ctxDone = true) (hs : run env acts s = some s') : s'.ctxDone = true := by
  induction acts generalizing s with
  | nil =>
      simp only [run, Option.some.injEq] at hs
      exact hs ▸ hd
  | cons a rest ih =>
      simp only [run] at hs
      split at hs
      · rename_i s1 h1
        exact ih (ctxDone_step hd h1) hs
      · cases hs

/-- Workers are never removed or renamed. -/
theorem workers_step {env : Env} {a : Action} {s s' : State}
    (hs : step env a s = some s') :
    s.workers.length ≤ s'.workers.length ∧
    (∀ (i : Nat) (w' : Worker), s'.workers[i]? = some w' → i < s.workers.length →
      ∃ w, s.workers[i]? = some w ∧ w'.audioName = w.audioName) := by
  rcases step_workers hs with e | ⟨i, w, w', hw, e, hn⟩ | ⟨_, w, e⟩
  · rw [e]
    exact ⟨Nat.le_refl _, fun i w' h _ => ⟨w', h, rfl⟩⟩
  · rw [e]
    refine ⟨by rw [List.length_set], ?_⟩
    intro j v hv _
    rcases getElem?_set_some hv with ⟨rfl, rfl, _⟩ | ⟨_, hv0⟩
    · exact ⟨w, hw, hn⟩
    · exact ⟨v, hv0, rfl⟩
  · rw [e]
    refine ⟨by simp, ?_⟩
    intro j v hv hj
    rcases getElem?_snoc_some hv with ⟨_, hv0⟩ | ⟨hj', _⟩
    · exact ⟨v, hv0, rfl⟩
    · omega

theorem workers_run {env : Env} {acts : List Action} {s s' : State}
    (hs : run env acts s = some s') :
    s.workers.length ≤ s'.workers.length ∧
    (∀ (i : Nat) (w' : Worker), s'.workers[i]? = some w' → i < s.workers.length →
      ∃ w, s.workers[i]? = some w ∧ w'.audioName = w.audioName) := by
  induction acts generalizing s with
  | nil =>
      simp only [run, Option.some.injEq] at hs
      subst hs
      exact ⟨Nat.le_refl _, fun i w' h _ => ⟨w', h, rfl⟩⟩
  | cons a rest ih =>
      simp only [run] at hs
      split at hs
      · rename_i s1 h1
        obtain ⟨a1, a2⟩ := workers_step h1
        obtain ⟨b1, b2⟩ := ih hs
        refine ⟨Nat.le_trans a1 b1, ?_⟩
        intro i w' hw' hi
        obtain ⟨v, hv, ev⟩ := b2 i w' hw' (by omega)
        obtain ⟨w, hw, ew⟩ := a2 i v hv hi
        exact ⟨w, hw, ev.trans ew⟩
      · cases hs

/-- Only the shutdown arm of the select reads `ctx.Done()`. -/
theorem ctxDone_frame (env : Env) (a : Action) (u : State) (b : Bool)
    (h1 : a ≠ .selectCtx) (h2 : a ≠ .signal) :
    step env a { u with ctxDone := b }
      = (step env a u).map (fun v => { v with ctxDone := b }) := by
  obtain ⟨c, ws, now, cd, k⟩ := u
  cases a
  · cases c <;> simp only [RspiMicRecorder.step, mainStep] <;> try rfl
    · split <;> rfl
    · split <;> rfl
    · split <;> rfl
    · split <;> rfl
  · exact absurd rfl h1
  · cases c <;> simp only [RspiMicRecorder.step, selectTimerStep] <;> try rfl
    split <;> rfl
  · cases c <;> simp only [RspiMicRecorder.step, handStopStep] <;> try rfl
    split
    · split <;> rfl
    · rfl
  · cases c <;> simp only [RspiMicRecorder.step, handDoneStep] <;> try rfl
    split
    · split <;> rfl
    · rfl
  · simp only [RspiMicRecorder.step, workerStep]
    split
    · split
      · split <;> rfl
      · rfl
    · rfl
  · simp only [RspiMicRecorder.step]
    split <;> rfl
  · exact absurd rfl h2

/-- C5, amended: once the shutdown signal has fired it stays fired, and from then on a
worker is launched only through the timer arm: in every continuation the workers
launched after that point number at most the selects resolved by the timer arm after
it, plus one when the controller had already passed the select of its current
iteration by the timer arm (or stood at the top of the loop) when the signal fired.  A
select whose timer has not expired can then only be resolved by the shutdown arm, and a
timer arm is taken only when at least 7 s have passed since the launch of its segment.
So with no timer arm taken after the signal at most one worker is launched after it,
and none, and no file of a new segment, when no launch was pending; after the shutdown
arm no worker is launched at all.  Every step but the shutdown arm (and the signal
itself) does the same with and without the signal. -/
theorem launches_after_signal (env : Env) (t0 : Nat) (s : State) (acts : List Action)
    (s' : State) (hr : Reachable env t0 s) (hd : s.ctxDone = true)
    (hs : run env acts s = some s') :
    s'.ctxDone = true ∧
    s'.workers.length + s'.ctrl.pending ≤
      s.workers.length + s.ctrl.pending + acts.count .selectTimer ∧
    (∀ ch deadline, s'.ctrl = .select ch deadline → s'.now < deadline →
      selectTimerStep s' = none ∧
      selectCtxStep s' = some { s' with ctrl := .sendStop ch true }) ∧
    (∀ (ch : Nat) (w : Worker), s'.ctrl = .sendStop ch false → s'.workers[ch]? = some w →
      w.launchedAt + interval ≤ s'.now) ∧
    (acts.count .selectTimer = 0 →
      s'.workers.length ≤ s.workers.length + 1 ∧
      (s.ctrl.pending = 0 →
        s'.workers.length = s.workers.length ∧
        ∀ f ∈ createdFiles s'.workers, ∃ w ∈ s.workers, f = w.wav)) ∧
    (s.ctrl.shutdown = true →
      s'.ctrl.shutdown = true ∧ s'.workers.length = s.workers.length ∧
      ∀ f ∈ createdFiles s'.workers, ∃ w ∈ s.workers, f = w.wav) ∧
    (∀ (a : Action) (u : State) (b : Bool), a ≠ .selectCtx → a ≠ .signal →
      step env a { u with ctxDone := b }
        = (step env a u).map (fun v => { v with ctxDone := b })) := by
  have hd' := ctxDone_run hd hs
  have hpend := pending_run hs
  have hmono := workers_run hs
  have hinv' := Invariant.reachable_inv (hr.trans_run hs)
  have hfiles : s'.workers.length = s.workers.length →
      ∀ f ∈ createdFiles s'.workers, ∃ w ∈ s.workers, f = w.wav := by
    intro hlen f hf
    obtain ⟨w', hw', hfw⟩ := mem_createdFiles.mp hf
    obtain ⟨i, hi⟩ := List.mem_iff_getElem?.mp hw'
    have hf' := (hinv'.wk i w' hi).1.created_sub hfw
    have hil : i < s'.workers.length := (List.getElem?_eq_some.mp hi).1
    obtain ⟨w, hw, hn⟩ := hmono.2 i w' hi (by omega)
    refine ⟨w, List.mem_iff_getElem?.mpr ⟨i, hw⟩, ?_⟩
    rw [hf']
    simp only [Worker.wav, hn]
  refine ⟨hd', hpend, ?_, ?_, ?_, ?_, ?_⟩
  · intro ch deadline hc hnow
    obtain ⟨c, ws, now, cd, k⟩ := s'
    simp only at hc hnow hd'
    subst hc hd'
    refine ⟨?_, ?_⟩
    · simp only [selectTimerStep]
      rw [if_neg (by omega)]
    · simp only [selectCtxStep, if_true]
  · intro ch w hc hw
    have hsh := hinv'.shaped
    simp only [hc, shape] at hsh
    have h5 := (hinv'.wk ch w hw).2.2.2.2 hsh.1
    simpa only [hc, lastOk] using h5
  · intro hcount
    have hp := pending_le_one s.ctrl
    refine ⟨by omega, ?_⟩
    intro h0
    have hlen : s'.workers.length = s.workers.length := by
      have := hmono.1
      omega
    exact ⟨hlen, hfiles hlen⟩
  · intro hsd
    obtain ⟨h1, h2, _⟩ := shutdown_run hsd hs
    exact ⟨h1, h2, hfiles h2⟩
  · intro a u b h1 h2
    exact ctxDone_frame env a u b h1 h2

/-- C5, amended, on a run: the signal fires while the first worker is stopping after
the timer arm (one launch pending); the rest of the run launches exactly one more
worker, stops it through the shutdown arm, and `main` returns. -/
theorem launches_after_signal_witness :
    (stateAfter envOk lateSignalSchedule).ctxDone = true ∧
    (stateAfter envOk lateSignalSchedule).ctrl.pending = 1 ∧
    (stateAfter envOk lateSignalSchedule).workers.length = 1 ∧
    (stateAfter envOk (lateSignalSchedule ++ lateSignalExit)).ctrl = .returned ∧
    (stateAfter envOk (lateSignalSchedule ++ lateSignalExit)).workers.length = 2 ∧
    (stateAfter envOk (lateSignalSchedule ++ lateSignalExit)).workers.length
      ≤ (stateAfter envOk lateSignalSchedule).workers.length + 1 :=
  ⟨rfl, rfl, rfl, rfl, rfl,
   ((launches_after_signal envOk 0 (stateAfter envOk lateSignalSchedule) lateSignalExit
      (stateAfter envOk (lateSignalSchedule ++ lateSignalExit))
      ⟨lateSignalSchedule, rfl⟩ rfl rfl).2.2.2.2.1 rfl).1⟩

/-- C8: in the timed reading (every stream opens, statements and handshakes take no
time, the loop starts at clock `t0`, the signal is raised `t` seconds later, `t` not a
multiple of 7) some run ends with `main` returned, and every run that does so has
launched exactly `t / 7 + 1` workers, each of which created one file and closed it; the
first `t / 7` streams were stopped exactly 7 seconds after they were started and the
last one `t % 7` seconds after it was started. -/
theorem shutdown_after_seconds (env : Env) (t0 t : Nat)
    (hlog : env.openLogOk = true) (hcl : env.newClientOk = true)
    (hrec : ∀ i, env.newRecordOk i = true) (ht : t % 7 ≠ 0) :
    (∃ acts s, runTimed env (t0 + t * second) acts (init t0) = some s ∧
      s.ctrl = .returned) ∧
    ∀ acts s, runTimed env (t0 + t * second) acts (init t0) = some s →
      s.ctrl = .returned →
      s.workers.length = t / 7 + 1 ∧
      (createdFiles s.workers).length = t / 7 + 1 ∧
      (∀ w ∈ s.workers, w.pc = .returned ∧ w.created = [w.wav] ∧
        WEvent.fileClose ∈ w.trace) ∧
      (∀ (i : Nat) (w : Worker), s.workers[i]? = some w → i < t / 7 →
        w.stoppedAt = w.startedAt + 7 * second) ∧
      (∀ w : Worker, s.workers[t / 7]? = some w →
        w.stoppedAt = w.startedAt + t % 7 * second) := by
  refine ⟨?_, ?_⟩
  · obtain ⟨s, h1, h2⟩ := timedSchedule_run t0 t hlog hcl hrec
    exact ⟨_, s, h1, h2⟩
  · intro acts s hrun hret
    have hT : ∀ k, t0 + k * interval ≠ t0 + t * second := by
      intro k
      simp only [interval, second]
      omega
    have hle : t0 ≤ t0 + t * second := Nat.le_add_right _ _
    have hinv : Invariant env s := (Invariant.init_inv env t0).run_inv (runTimed_run hrun)
    have htim : TimedInv t0 (t0 + t * second) s :=
      (TimedInv.init_timed t0 _).run_timed hT hle hlog hcl (Invariant.init_inv env t0) hrun
    have hclock := htim.clock
    simp only [hret, clockOk] at hclock
    obtain ⟨hnow, ch, hn, hlo, hhi⟩ := hclock
    have hch : ch = t / 7 := by
      simp only [interval, second] at hlo hhi
      omega
    subst hch
    have hretw : ∀ (i : Nat) (w : Worker), s.workers[i]? = some w → w.pc = .returned := by
      intro i w hw
      have := (hinv.wk i w hw).2.1
      simpa only [hret, coupled, Ctrl.current] using this
    have hcr : ∀ w ∈ s.workers, w.created = [w.wav] := by
      intro w hw
      obtain ⟨i, hi⟩ := List.mem_iff_getElem?.mp hw
      exact (hinv.wk i w hi).1.created_returned (hretw i w hi)
    refine ⟨hn.symm, ?_, ?_, ?_, ?_⟩
    · rw [createdFiles_eq_map hcr, List.length_map, hn]
    · intro w hw
      obtain ⟨i, hi⟩ := List.mem_iff_getElem?.mp hw
      have hp := hretw i w hi
      refine ⟨hp, hcr w hw, ?_⟩
      have htr := (hinv.wk i w hi).1.trace_eq
      rw [htr, hp]
      simp [traceAt]
    · intro i w hw hi
      have htw := htim.tw i w hw
      have hp := hretw i w hw
      have h3 := htw.started (by rw [hp]; rfl)
      have h4 := htw.stoppedOld (by omega)
      rw [h4, h3]
      rfl
    · intro w hw
      have htw := htim.tw (t / 7) w hw
      have hp := hretw _ w hw
      have h1 := htw.launched
      have h3 := htw.started (by rw [hp]; rfl)
      have h5 := htw.stoppedLast hn (by rw [hp]; rfl)
      rw [h5, h3, h1, hnow]
      simp only [interval, second]
      omega

/-- C8 for `t = 16`: the schedule of the timed reading ends with `main` returned after
three workers; two streams ran 7 seconds and the third 2 seconds. -/
theorem shutdown_after_seconds_witness :
    runTimed envOk (16 * second) (timedSchedule 16) (init 0)
      = some (timedStateAfter envOk (16 * second) (timedSchedule 16)) ∧
    (timedStateAfter envOk (16 * second) (timedSchedule 16)).ctrl = .returned ∧
    (timedStateAfter envOk (16 * second) (timedSchedule 16)).workers.map
        (fun w => (w.startedAt, w.stoppedAt))
      = [(0, 7 * second), (7 * second, 14 * second), (14 * second, 16 * second)] ∧
    (timedStateAfter envOk (16 * second) (timedSchedule 16)).workers.length = 16 / 7 + 1 ∧
    (createdFiles (timedStateAfter envOk (16 * second) (timedSchedule 16)).workers).length
      = 16 / 7 + 1 :=
  ⟨rfl, rfl, by decide,
   ((shutdown_after_seconds envOk 0 16 rfl rfl (fun _ => rfl) (by decide)).2
      (timedSchedule 16) (timedStateAfter envOk (16 * second) (timedSchedule 16))
      (by rw [Nat.zero_add]; rfl) rfl).1,
   ((shutdown_after_seconds envOk 0 16 rfl rfl (fun _ => rfl) (by decide)).2
      (timedSchedule 16) (timedStateAfter envOk (16 * second) (timedSchedule 16))
      (by rw [Nat.zero_add]; rfl) rfl).2.1⟩

end RspiMicRecorder
